import Mathlib

/-!
# Verification of the revng-c decompiler back-end core

Shallow embedding of the two core subsystems of the repository:

* the per-function IR-to-AST statement builder
  (`src/lib/Decompiler/ASTBuildAnalysis.cpp`), and
* the Data-Layout-Analysis type-system graph
  (`src/lib/Decompiler/DLATypeSystem.h`),

followed by theorems settling the claims about them.

A 64-bit data layout is assumed throughout (the tool targets x86-64):
pointers are 64 bits wide and `uintptr_t` is `unsigned long`.
-/

set_option autoImplicit false

namespace RevngC

/-! ## The LLVM IR slice consumed by the statement builder -/

/-- The `llvm::CmpInst` integer predicates that can appear on an `ICmp`. -/
inductive ICmpPred where
  | peq | pne | ugt | uge | ult | ule | sgt | sge | slt | sle
deriving DecidableEq

/-- `llvm::CmpInst::isSigned`: exactly the four `S*` orderings are signed. -/
def ICmpPred.isSigned : ICmpPred → Bool
  | .sgt | .sge | .slt | .sle => true
  | _ => false

/-- The instruction opcodes the builder dispatches on. The constructors that the
statement builder treats as unsupported are collapsed into `otherOp`. -/
inductive Opcode where
  | add | sub | mul | udiv | sdiv | urem | srem
  | andOp | orOp | xorOp
  | icmp (p : ICmpPred)
  | shl | lshr | ashr
  | trunc | zext | sext | inttoptr | ptrtoint | bitcast
  | load | store | ret | call | selectOp | allocaOp | unreachable
  | otherOp
deriving DecidableEq

/-! ## The clang AST slice produced by the builder -/

/-- The `clang::BuiltinType` kinds reachable in the builder's code paths. -/
inductive BuiltinKind where
  | Char_U | Char_S | UChar | SChar
  | UShort | Short | UInt | Int | ULong | Long | ULongLong | LongLong
  | UInt128 | Int128
  | BoolTy | VoidTy
deriving DecidableEq

/-- `ASTContext::getTypeSize` on a builtin type, in bits (x86-64 widths;
`bool` occupies 8 bits). -/
def BuiltinKind.bitWidth : BuiltinKind → Nat
  | .Char_U | .Char_S | .UChar | .SChar | .BoolTy => 8
  | .UShort | .Short => 16
  | .UInt | .Int => 32
  | .ULong | .Long | .ULongLong | .LongLong => 64
  | .UInt128 | .Int128 => 128
  | .VoidTy => 0

/-- `clang::Type::isUnsignedIntegerType` restricted to builtins: `bool`,
the unsigned kinds, and plain `char` on targets where it is unsigned. -/
def BuiltinKind.isUnsignedIntegerKind : BuiltinKind → Bool
  | .BoolTy | .Char_U | .UChar | .UShort | .UInt | .ULong | .ULongLong
  | .UInt128 => true
  | _ => false

/-- A clang `QualType`: a builtin type or a pointer (qualifiers beyond what the
claims need are not modelled). -/
inductive CType where
  | builtin (k : BuiltinKind)
  | ptr (pointee : CType)
deriving DecidableEq

/-- `clang::Type::isIntegerType`: every builtin except `void` (bool and the
char kinds are integer types in clang). -/
def CType.isIntegerType : CType → Bool
  | .builtin .VoidTy => false
  | .builtin _ => true
  | .ptr _ => false

/-- `clang::Type::isPointerType`. -/
def CType.isPointerType : CType → Bool
  | .ptr _ => true
  | _ => false

/-- `clang::Type::isUnsignedIntegerType`. -/
def CType.isUnsignedIntegerType : CType → Bool
  | .builtin k => k.isUnsignedIntegerKind
  | .ptr _ => false

/-- `ASTContext::getTypeSize` in bits, for a 64-bit target. -/
def typeSize : CType → Nat
  | .builtin k => k.bitWidth
  | .ptr _ => 64

/-- `ASTContext::getUIntPtrType` on an LP64 target: `unsigned long`. -/
def uintPtrCType : CType := .builtin .ULong

/-- `ASTContext::getIntTypeForBitwidth` with `Signed = true`
(LP64: 64 bits resolve to `long`); widths without a matching C type yield the
null `QualType`, modelled as `none`. -/
def getIntTypeForBitwidth : Nat → Option CType
  | 8 => some (.builtin .SChar)
  | 16 => some (.builtin .Short)
  | 32 => some (.builtin .Int)
  | 64 => some (.builtin .Long)
  | 128 => some (.builtin .Int128)
  | _ => none

/-- The `clang::CastKind`s created by the builder. -/
inductive CastKind where
  | CK_IntegralCast | CK_PointerToIntegral | CK_IntegralToPointer | CK_BitCast
  | CK_LValueToRValue
deriving DecidableEq

/-- The `clang::BinaryOperatorKind`s created by the builder. -/
inductive BinaryOperatorKind where
  | BO_Add | BO_Sub | BO_Mul | BO_Div | BO_Rem
  | BO_And | BO_Or | BO_Xor | BO_Shl | BO_Shr
  | BO_EQ | BO_NE | BO_GT | BO_GE | BO_LT | BO_LE
  | BO_Assign
deriving DecidableEq

/-- The clang expression nodes the builder produces. `intLit` records the
`llvm::APInt` bit width and (unsigned) bit pattern together with the literal's
`QualType`. `declRef` stands for a `DeclRefExpr` to a declaration identified
by an opaque number. -/
inductive CExpr where
  | intLit (value : Nat) (bits : Nat) (ty : CType)
  | charLit (value : Nat) (ty : CType)
  | declRef (declId : Nat) (ty : CType)
  | implicitCast (ck : CastKind) (ty : CType) (e : CExpr)
  | cstyleCast (ck : CastKind) (ty : CType) (e : CExpr)
  | paren (e : CExpr)
  | binop (k : BinaryOperatorKind) (ty : CType) (lhs rhs : CExpr)
deriving DecidableEq

/-- `Expr::getType` (a `ParenExpr` has its subexpression's type). -/
def CExpr.getType : CExpr → CType
  | .intLit _ _ ty => ty
  | .charLit _ ty => ty
  | .declRef _ ty => ty
  | .implicitCast _ ty _ => ty
  | .cstyleCast _ ty _ => ty
  | .paren e => e.getType
  | .binop _ ty _ _ => ty

/-- `Expr::isLValue`: the builder only produces lvalues as `DeclRefExpr`s
(every cast, literal and binary operator it creates is built with
`VK_RValue`); a `ParenExpr` propagates its subexpression's value kind. -/
def CExpr.isLValue : CExpr → Bool
  | .declRef _ _ => true
  | .paren e => e.isLValue
  | _ => false

/-- Whether the root node is a `CStyleCastExpr`. -/
def CExpr.isCStyleCast : CExpr → Bool
  | .cstyleCast _ _ _ => true
  | _ => false

/-- Rank used only to justify termination of `createCast`: its single
recursive call replaces a pointer destination type with `uintptr_t`. -/
def CType.rank : CType → Nat
  | .ptr _ => 1
  | .builtin _ => 0

/-- `createCast` of `ASTBuildAnalysis.cpp` (lines 48–91). Fallible: the
`revng_abort`s on non-integer/non-pointer types and the
`revng_assert(PtrSize >= IntegerSize)` become `none`. When an integer
narrower than a pointer is converted to a pointer type, the operand is first
cast to `uintptr_t` by the recursive call. -/
def createCast (LHSQualTy : CType) (RHS : CExpr) : Option CExpr :=
  if LHSQualTy.isIntegerType then
    if RHS.getType.isIntegerType then
      some (.cstyleCast .CK_IntegralCast LHSQualTy RHS)
    else if RHS.getType.isPointerType then
      some (.cstyleCast .CK_PointerToIntegral LHSQualTy RHS)
    else none
  else if LHSQualTy.isPointerType then
    if RHS.getType.isIntegerType then
      if typeSize LHSQualTy < typeSize RHS.getType then none
      else if typeSize RHS.getType < typeSize LHSQualTy then
        match createCast uintPtrCType RHS with
        | some Widened => some (.cstyleCast .CK_IntegralToPointer LHSQualTy Widened)
        | none => none
      else some (.cstyleCast .CK_IntegralToPointer LHSQualTy RHS)
    else if RHS.getType.isPointerType then
      some (.cstyleCast .CK_BitCast LHSQualTy RHS)
    else none
  else none
termination_by LHSQualTy.rank
decreasing_by
  simp only [uintPtrCType, CType.rank]
  cases LHSQualTy with
  | builtin k => simp [CType.isIntegerType, CType.isPointerType] at *
  | ptr p => exact Nat.zero_lt_one

/-- `getClangBinaryOpKind` of `ASTBuildAnalysis.cpp` (lines 548–619).
The `default: revng_abort` paths are `none`.

The `Instruction::Mul` case of the source's switch has no `break`
(lines 557–559): control falls through into the `Instruction::And` case, so
the `BO_Mul` assignment is immediately overwritten and a `Mul` instruction
yields `BO_And`. -/
def getClangBinaryOpKind (I : Opcode) : Option BinaryOperatorKind :=
  match I with
  | .add => some .BO_Add
  | .sub => some .BO_Sub
  | .mul => some .BO_And
  | .andOp => some .BO_And
  | .orOp => some .BO_Or
  | .xorOp => some .BO_Xor
  | .icmp p =>
    match p with
    | .peq => some .BO_EQ
    | .pne => some .BO_NE
    | .ugt | .sgt => some .BO_GT
    | .uge | .sge => some .BO_GE
    | .ult | .slt => some .BO_LT
    | .ule | .sle => some .BO_LE
  | .shl => some .BO_Shl
  | .lshr | .ashr => some .BO_Shr
  | .udiv | .sdiv => some .BO_Div
  | .urem | .srem => some .BO_Rem
  | _ => none

/-- `is128Int` of `ASTBuildAnalysis.cpp` (lines 621–626). -/
def is128Int (E : CExpr) : Bool :=
  E.getType = .builtin .Int128 ∨ E.getType = .builtin .UInt128

/-- `getCastedBinaryOperands` of `ASTBuildAnalysis.cpp` (lines 628–682).
The two `revng_assert`s and the `default: revng_abort` become `none`.
For the unsigned family of opcodes the operands are returned unchanged;
for `SDiv`/`SRem`/`AShr` and signed comparisons each unsigned operand is
cast to the signed type of the maximal operand width (the source casts the
right operand first, then the left one). -/
def getCastedBinaryOperands (I : Opcode) (LHS RHS : CExpr) :
    Option (CExpr × CExpr) :=
  let LHSTy := LHS.getType
  let RHSTy := RHS.getType
  if ¬ (LHSTy.isIntegerType = true ∧ RHSTy.isIntegerType = true) then none
  else
    let LHSSize := typeSize LHSTy
    let RHSSize := typeSize RHSTy
    if ¬ (LHSSize = RHSSize ∨ I = .shl ∨ I = .lshr ∨ I = .ashr
          ∨ is128Int RHS = true ∨ is128Int LHS = true) then none
    else
      let Size := max LHSSize RHSSize
      match I with
      | .add | .sub | .mul | .andOp | .orOp | .xorOp | .udiv | .urem
      | .shl | .lshr => some (LHS, RHS)
      | .sdiv | .srem | .ashr | .icmp _ =>
        if (match I with | .icmp P => P.isSigned | _ => true) then
          match getIntTypeForBitwidth Size with
          | none => none
          | some SignedTy =>
            match (if RHSTy.isUnsignedIntegerType then createCast SignedTy RHS
                   else some RHS) with
            | none => none
            | some Second =>
              match (if LHSTy.isUnsignedIntegerType then createCast SignedTy LHS
                     else some LHS) with
              | none => none
              | some First => some (First, Second)
        else some (LHS, RHS)
      | _ => none

/-- The operand-wrapping block of
`StmtBuilder::createRValueExprForBinaryOperator`: an lvalue operand is
wrapped in a `CK_LValueToRValue` implicit cast of the same type. -/
def lvalueToRValue (e : CExpr) : CExpr :=
  if e.isLValue then .implicitCast .CK_LValueToRValue e.getType e else e

/-- `StmtBuilder::createRValueExprForBinaryOperator` of
`ASTBuildAnalysis.cpp` (lines 684–739). `LHSIn`/`RHSIn` stand for the
results of `getParenthesizedExprForValue` on the instruction's two operands,
and `ResType` for `IRASTTypeTranslation::getQualType(&I, ASTCtx)` — the
translated IR result type of the instruction (the translation unit
implementing it is not part of src/; see `getQualTypeForIntWidth`).
Lvalue operands are wrapped in an lvalue-to-rvalue implicit cast; for
`SDiv`/`SRem`/`AShr`/`ICmp` the whole operation is parenthesized and cast to
the translated result type. -/
def createRValueExprForBinaryOperator (I : Opcode) (LHSIn RHSIn : CExpr)
    (ResType : CType) : Option CExpr :=
  match getClangBinaryOpKind I with
  | none => none
  | some BinOpKind =>
    let LHS := lvalueToRValue LHSIn
    let RHS := lvalueToRValue RHSIn
    match getCastedBinaryOperands I LHS RHS with
    | none => none
    | some (CastedLHS, CastedRHS) =>
      let Res := CExpr.binop BinOpKind CastedLHS.getType CastedLHS CastedRHS
      match I with
      | .sdiv | .srem | .ashr | .icmp _ => createCast ResType (.paren Res)
      | _ => some Res

/-! ## Constants and literals -/

/-- The `llvm::Constant`s reaching `getLiteralFromConstant`: integer
constants (`ConstantInt`, with bit width and unsigned bit pattern), the null
pointer constant, and constant cast expressions (`ConstantExpr`). -/
inductive LLVMConstant where
  | constInt (bits : Nat) (value : Nat)
  | constPtrNull
  | constExprCast (op : Opcode) (operand : LLVMConstant)
deriving DecidableEq

/-- Modelled from the spec: `IRASTTypeTranslation::getQualType` on an integer
type — the file implementing the IR→AST type translation is not in src/.
Spec §4.6: an integer of width `w` maps to the unsigned C type of exactly
that bit-width (`uint128` for 128); `i1` maps to `bool`. Unsupported widths
are a fatal failure (`none`). -/
def getQualTypeForIntWidth : Nat → Option BuiltinKind
  | 1 => some .BoolTy
  | 8 => some .UChar
  | 16 => some .UShort
  | 32 => some .UInt
  | 64 => some .ULong
  | 128 => some .UInt128
  | _ => none

/-- The switch over the literal type's builtin kind in
`StmtBuilder::getLiteralFromConstant` (lines 977–1032). `ConstValue` is the
value returned by `APInt::getZExtValue`, hence below `2^64`; each `APInt`
constructed at width `w` keeps the low `w` bits. At exactly 128 bits the
literal is built at 64 bits (`APInt(64, ConstValue)`) and typed
`unsigned long long` (resp. `long long`), since C has no 128-bit literals.
The `default: revng_abort` is `none`. -/
def literalForKind (k : BuiltinKind) (ConstValue : Nat) : Option CExpr :=
  match k with
  | .Char_U | .Char_S | .UChar | .SChar =>
    some (.charLit ConstValue (.builtin .Char_S))
  | .UShort =>
    createCast (.builtin .UShort)
      (.intLit (ConstValue % 2 ^ 32) 32 (.builtin .UInt))
  | .Short =>
    createCast (.builtin .Short)
      (.intLit (ConstValue % 2 ^ 32) 32 (.builtin .Int))
  | .UInt => some (.intLit (ConstValue % 2 ^ 32) 32 (.builtin .UInt))
  | .ULong => some (.intLit (ConstValue % 2 ^ 64) 64 (.builtin .ULong))
  | .ULongLong => some (.intLit (ConstValue % 2 ^ 64) 64 (.builtin .ULongLong))
  | .Int => some (.intLit (ConstValue % 2 ^ 32) 32 (.builtin .Int))
  | .Long => some (.intLit (ConstValue % 2 ^ 64) 64 (.builtin .Long))
  | .LongLong => some (.intLit (ConstValue % 2 ^ 64) 64 (.builtin .LongLong))
  | .UInt128 => some (.intLit (ConstValue % 2 ^ 64) 64 (.builtin .ULongLong))
  | .Int128 => some (.intLit (ConstValue % 2 ^ 64) 64 (.builtin .LongLong))
  | _ => none

/-- `StmtBuilder::getLiteralFromConstant` of `ASTBuildAnalysis.cpp`
(lines 969–1064). For a `ConstantInt`, the literal type comes from the
IR→AST translation and `ConstValue = APInt::getZExtValue()` — the value's
low 64 bits (`getZExtValue` additionally asserts in debug builds of LLVM
when the value exceeds 64 bits, as the source comments note). A null
pointer constant becomes a zero literal of `uintptr_t` type. A constant
cast expression of one of the six integer-reinterpretation opcodes returns
the expression of its operand unchanged — `getExprForValue` on
`cast<ConstantInt>(CE->getOperand(0))`, which dispatches back here; the
`cast<ConstantInt>` is fatal (`none`) for any non-`ConstantInt` operand.
Everything else is `revng_abort` (`none`). -/
def getLiteralFromConstant : LLVMConstant → Option CExpr
  | .constInt bits value =>
    match getQualTypeForIntWidth bits with
    | none => none
    | some k => literalForKind k (value % 2 ^ 64)
  | .constPtrNull => some (.intLit 0 64 uintPtrCType)
  | .constExprCast op operand =>
    match op with
    | .trunc | .zext | .sext | .inttoptr | .ptrtoint | .bitcast =>
      match operand with
      | .constInt b v => getLiteralFromConstant (.constInt b v)
      | _ => none
    | _ => none

/-! ## The DLA type-system graph (`DLATypeSystem.h`)

The C++ graph owns nodes behind `unique_ptr`s and stores neighbor links as a
`std::set` of `(LayoutTypeSystemNode *, const TypeLinkTag *)` pairs, ordered
by the pairs' built-in `operator<` — that is, by the two **pointer values**.
The embedding makes the allocation addresses explicit: every node and every
interned tag lives at a `Nat` address, and those addresses are data of the
state (the C++ standard guarantees nothing about how heap addresses compare,
so the address assignment is an input of the model). -/

/-- `dla::OffsetExpression`: trip counts, strides, and a base offset. -/
structure OffsetExpression where
  TripCounts : List (Option Int)
  Strides : List Int
  Offset : Int
deriving DecidableEq

/-- Three-way comparison on `Int`, as `operator<=>`. -/
def cmpInt (a b : Int) : Ordering :=
  if a < b then .lt else if b < a then .gt else .eq

/-- `llvm::SmallVector::operator<`: lexicographic element-wise comparison,
shorter prefixes first. -/
def cmpListLex {α : Type} (c : α → α → Ordering) : List α → List α → Ordering
  | [], [] => .eq
  | [], _ :: _ => .lt
  | _ :: _, [] => .gt
  | a :: as, b :: bs =>
    match c a b with
    | .eq => cmpListLex c as bs
    | o => o

/-- `std::optional<int64_t>` comparison: an empty optional precedes every
engaged one. -/
def cmpOptInt : Option Int → Option Int → Ordering
  | none, none => .eq
  | none, some _ => .lt
  | some _, none => .gt
  | some a, some b => cmpInt a b

/-- `OffsetExpression::operator<=>` (DLATypeSystem.h lines 106–122):
by `Offset`, then `Strides`, then `TripCounts`. -/
def OffsetExpression.scompare (a b : OffsetExpression) : Ordering :=
  match cmpInt a.Offset b.Offset with
  | .eq =>
    match cmpListLex cmpInt a.Strides b.Strides with
    | .eq => cmpListLex cmpOptInt a.TripCounts b.TripCounts
    | o => o
  | o => o

/-- `dla::TypeLinkTag::LinkKind` (`LK_All` exists only as an edge filter). -/
inductive LinkKind where
  | LK_Inheritance | LK_Equality | LK_Instance | LK_All
deriving DecidableEq

/-- The enum's underlying value, used by `TypeLinkTag::operator<=>`. -/
def LinkKind.toNat : LinkKind → Nat
  | .LK_Inheritance => 0
  | .LK_Equality => 1
  | .LK_Instance => 2
  | .LK_All => 3

/-- `dla::TypeLinkTag`: an offset expression and a link kind. -/
structure TypeLinkTag where
  OE : OffsetExpression
  Kind : LinkKind
deriving DecidableEq

/-- `TypeLinkTag::equalityTag()`. -/
def TypeLinkTag.equalityTag : TypeLinkTag :=
  ⟨⟨[], [], 0⟩, .LK_Equality⟩

/-- `TypeLinkTag::inheritanceTag()`. -/
def TypeLinkTag.inheritanceTag : TypeLinkTag :=
  ⟨⟨[], [], 0⟩, .LK_Inheritance⟩

/-- `TypeLinkTag::instanceTag(O)`. -/
def TypeLinkTag.instanceTag (O : OffsetExpression) : TypeLinkTag :=
  ⟨O, .LK_Instance⟩

/-- `TypeLinkTag::operator<=>` (lines 187–191): by kind, then by offset
expression. -/
def TypeLinkTag.scompare (a b : TypeLinkTag) : Ordering :=
  match cmpInt a.Kind.toNat b.Kind.toNat with
  | .eq => a.OE.scompare b.OE
  | o => o

/-- `dla::LayoutType` (lines 198–202): the observed access sites (modelled as
opaque `Use` addresses) and the inferred size. -/
structure LayoutType where
  Accesses : List Nat
  Size : Nat
deriving DecidableEq

/-- `dla::LayoutTypeSystemNode`: the dense creation-order `ID`, and the two
neighbor sets. A link is a `(neighbor address, tag address)` pair; each set is
kept as the strictly ascending list of its elements, which is exactly the
iteration order of the C++ `std::set` over `(node pointer, tag pointer)`
pairs. -/
structure LayoutTypeSystemNode where
  ID : Nat
  Successors : List (Nat × Nat)
  Predecessors : List (Nat × Nat)
  L : LayoutType
deriving DecidableEq

/-- The strict order of `std::set<Link>`: lexicographic on the
`(node pointer, tag pointer)` pair. -/
def linkLtb (a b : Nat × Nat) : Bool :=
  a.1 < b.1 || (a.1 = b.1 && a.2 < b.2)

/-- `std::set<Link>::insert`: keeps the list strictly ascending, returns the
updated list and the `second` member of the result (whether the element was
newly inserted). -/
def insertLink (x : Nat × Nat) : List (Nat × Nat) → List (Nat × Nat) × Bool
  | [] => ([x], true)
  | y :: ys =>
    if linkLtb x y then (x :: y :: ys, true)
    else if x = y then (y :: ys, false)
    else
      let r := insertLink x ys
      (y :: r.1, r.2)

/-- Lookup in an association list of `(address, node)` entries, as following
a node pointer. -/
def lookupNode : List (Nat × LayoutTypeSystemNode) → Nat →
    Option LayoutTypeSystemNode
  | [], _ => none
  | (k, n) :: rest, a => if k = a then some n else lookupNode rest a

/-- In-place update of the node stored at address `a`, as mutation through a
node pointer. -/
def updNode : List (Nat × LayoutTypeSystemNode) → Nat →
    (LayoutTypeSystemNode → LayoutTypeSystemNode) →
    List (Nat × LayoutTypeSystemNode)
  | [], _, _ => []
  | (k, n) :: rest, a, f =>
    (if k = a then (k, f n) else (k, n)) :: updNode rest a f

/-- The state of `dla::LayoutTypeSystem` that link insertion touches:
the owned nodes (`Layouts`), the interned tag set (`LinkTags`, each tag at a
stable address), and the model's allocator for fresh tag addresses.
(`NID` and the two key maps play no part in link insertion.) -/
structure LayoutTypeSystem where
  Layouts : List (Nat × LayoutTypeSystemNode)
  LinkTags : List (Nat × TypeLinkTag)
  NextTagAddr : Nat
deriving DecidableEq

/-- The address of the first interned tag comparing equal to `t`
(the `std::set<TypeLinkTag>` lookup under `operator<`). -/
def findTagAddr : List (Nat × TypeLinkTag) → TypeLinkTag → Option Nat
  | [], _ => none
  | (a, u) :: rest, t =>
    if u.scompare t = .eq then some a else findTagAddr rest t

/-- `LinkTags.insert(Tag)`: returns the canonical address of the tag,
interning it at a fresh address when absent. Element addresses of a
`std::set` are stable, so an interned address never changes. -/
def internTag (S : LayoutTypeSystem) (t : TypeLinkTag) :
    LayoutTypeSystem × Nat :=
  match findTagAddr S.LinkTags t with
  | some a => (S, a)
  | none =>
    ({ S with
        LinkTags := S.LinkTags ++ [(S.NextTagAddr, t)]
        NextTagAddr := S.NextTagAddr + 1 },
     S.NextTagAddr)

/-- Update of the node at address `a` inside the whole state. -/
def LayoutTypeSystem.updAt (S : LayoutTypeSystem) (a : Nat)
    (f : LayoutTypeSystemNode → LayoutTypeSystemNode) : LayoutTypeSystem :=
  { S with Layouts := updNode S.Layouts a f }

/-- The body of `LayoutTypeSystem::addLink` (lines 290–305) after the early
return and the two ownership asserts: intern the tag, insert
`(Tgt, tag)` into `Src->Successors` and `(Src, tag)` into
`Tgt->Predecessors`, and report the tag address together with
`New = first-insert-was-new | second-insert-was-new`. -/
def LayoutTypeSystem.addLinkCore (S : LayoutTypeSystem) (src tgt : Nat)
    (srcN tgtN : LayoutTypeSystemNode) (tag : TypeLinkTag) :
    LayoutTypeSystem × (Option Nat × Bool) :=
  let it := internTag S tag
  let ins1 := insertLink (tgt, it.2) srcN.Successors
  let ins2 := insertLink (src, it.2) tgtN.Predecessors
  let S' :=
    ((it.1.updAt src (fun n => { n with Successors := ins1.1 })).updAt tgt
      (fun n => { n with Predecessors := ins2.1 }))
  (S', (some it.2, ins1.2 || ins2.2))

/-- `LayoutTypeSystem::addLink` (lines 290–305). A null endpoint or a
self-link returns `(nullptr, false)` with the graph untouched; the
`revng_assert(Layouts.count(...))` ownership checks become `none`. -/
def LayoutTypeSystem.addLink (S : LayoutTypeSystem) (Src Tgt : Option Nat)
    (Tag : TypeLinkTag) :
    Option (LayoutTypeSystem × (Option Nat × Bool)) :=
  match Src, Tgt with
  | some src, some tgt =>
    if src = tgt then some (S, (none, false))
    else
      match lookupNode S.Layouts src, lookupNode S.Layouts tgt with
      | some srcN, some tgtN => some (S.addLinkCore src tgt srcN tgtN Tag)
      | _, _ => none
  | _, _ => some (S, (none, false))

/-- `LayoutTypeSystem::addEqualityLink` (lines 307–314): one link in each
direction, with `revng_assert(ForwardLinkTag == BackwardLinkTag)` modelled as
`none` on mismatch; the forward result is returned. -/
def LayoutTypeSystem.addEqualityLink (S : LayoutTypeSystem)
    (Src Tgt : Option Nat) :
    Option (LayoutTypeSystem × (Option Nat × Bool)) :=
  match S.addLink Src Tgt TypeLinkTag.equalityTag with
  | none => none
  | some (S1, ForwardLinkTag) =>
    match S1.addLink Tgt Src TypeLinkTag.equalityTag with
    | none => none
    | some (S2, BackwardLinkTag) =>
      if ForwardLinkTag = BackwardLinkTag then some (S2, ForwardLinkTag)
      else none

/-- `LayoutTypeSystem::addInheritanceLink` (lines 316–319). -/
def LayoutTypeSystem.addInheritanceLink (S : LayoutTypeSystem)
    (Src Tgt : Option Nat) :
    Option (LayoutTypeSystem × (Option Nat × Bool)) :=
  S.addLink Src Tgt TypeLinkTag.inheritanceTag

/-- `LayoutTypeSystem::addInstanceLink` (lines 321–331). -/
def LayoutTypeSystem.addInstanceLink (S : LayoutTypeSystem)
    (Src Tgt : Option Nat) (OE : OffsetExpression) :
    Option (LayoutTypeSystem × (Option Nat × Bool)) :=
  S.addLink Src Tgt (TypeLinkTag.instanceTag OE)

/-- Strict ascending sortedness of a neighbor list — the invariant a C++
`std::set<Link>` maintains by construction. -/
def LinksSorted (l : List (Nat × Nat)) : Prop :=
  List.Chain' (fun a b => linkLtb a b = true) l

instance (l : List (Nat × Nat)) : Decidable (LinksSorted l) := by
  unfold LinksSorted; infer_instance

/-- Well-formedness of a node map: node addresses are distinct (each C++
object has one address) and every neighbor set is strictly sorted (it is a
`std::set`). -/
def WFLayouts (l : List (Nat × LayoutTypeSystemNode)) : Prop :=
  (l.map Prod.fst).Nodup ∧
  ∀ p ∈ l, LinksSorted p.2.Successors ∧ LinksSorted p.2.Predecessors

instance (l : List (Nat × LayoutTypeSystemNode)) : Decidable (WFLayouts l) := by
  unfold WFLayouts; infer_instance

/-- Well-formedness of a state. -/
def WFLTS (S : LayoutTypeSystem) : Prop :=
  WFLayouts S.Layouts

instance (S : LayoutTypeSystem) : Decidable (WFLTS S) := by
  unfold WFLTS; infer_instance

/-- The successor list of the node at `addr`, with each neighbor address
resolved to that neighbor's `ID` — the order in which a graph walk visits
successors, expressed in IDs. -/
def succNeighborIDs (S : LayoutTypeSystem) (addr : Nat) : List Nat :=
  match lookupNode S.Layouts addr with
  | none => []
  | some n =>
    n.Successors.map (fun l =>
      match lookupNode S.Layouts l.1 with
      | some m => m.ID
      | none => 0)

/-! ## The Layout-Type Key (`LayoutTypePtr`, lines 38–94) -/

/-- The LLVM types a `LayoutTypePtr` inspects. A struct type carries its
element count (`StructType::getNumElements` is the only thing consulted). -/
inductive LLVMType where
  | integerType (bits : Nat)
  | pointerType
  | structType (numElements : Nat)
  | voidType
  | floatType
deriving DecidableEq

/-- An `llvm::Value`: either an `llvm::Function` (carrying its return type)
or any other value carrying its type. -/
inductive LLVMValue where
  | functionValue (returnType : LLVMType)
  | plainValue (ty : LLVMType)
deriving DecidableEq

/-- `isa<llvm::Function>(V)`. -/
def LLVMValue.isFunction : LLVMValue → Bool
  | .functionValue _ => true
  | .plainValue _ => false

/-- `Value::getType` — an `llvm::Function`'s value type is a pointer (to the
function). -/
def LLVMValue.getType : LLVMValue → LLVMType
  | .functionValue _ => .pointerType
  | .plainValue t => t

/-- `isa<llvm::IntegerType>`. -/
def LLVMType.isIntegerTy : LLVMType → Bool
  | .integerType _ => true
  | _ => false

/-- `isa<llvm::PointerType>`. -/
def LLVMType.isPointerTy : LLVMType → Bool
  | .pointerType => true
  | _ => false

/-- `dyn_cast<StructType>(F->getReturnType())` when `V` is a function:
the element count of the returned struct, `none` otherwise. -/
def structReturnArity : LLVMValue → Option Nat
  | .functionValue (.structType numElements) => some numElements
  | _ => none

/-- `std::numeric_limits<unsigned>::max()`, the sentinel for an absent
tuple-field index. -/
def unsignedMax : Nat := 4294967295

/-- `dla::LayoutTypePtr`: an IR entity and a tuple-field index. The class
has no mutating member (all fields are private and only assigned in the
constructor), so a constructed key never changes. -/
structure LayoutTypePtr where
  V : LLVMValue
  FieldIdx : Nat
deriving DecidableEq

/-- The `LayoutTypePtr` constructor (lines 43–69). Each `revng_assert`
becomes `none`: the value is non-null; it is a function or has integer or
pointer type; the field index differs from the sentinel exactly when the
value is a function returning a struct; and then the index is below the
struct's element count. -/
def LayoutTypePtr.make (Val : Option LLVMValue) (Idx : Nat) :
    Option LayoutTypePtr :=
  match Val with
  | none => none
  | some v =>
    let Ty := v.getType
    if v.isFunction || Ty.isIntegerTy || Ty.isPointerTy then
      let VIsFunctionAndReturnsStruct := (structReturnArity v).isSome
      if Bool.xor VIsFunctionAndReturnsStruct (Idx == unsignedMax) then
        if VIsFunctionAndReturnsStruct
            && !(decide (Idx < (structReturnArity v).getD 0)) then none
        else some ⟨v, Idx⟩
      else none
    else none

/-- The constructor precondition as the spec words it (§3, §4.1): `V` is
non-null; `V` is a function, an integer-typed value, or a pointer-typed
value; the index is present (differs from the sentinel) iff `V` is a
function returning a struct; and in that case it is below the struct's
element count. -/
def specLayoutTypeKeyValid (Val : Option LLVMValue) (Idx : Nat) : Prop :=
  ∃ v, Val = some v
    ∧ (v.isFunction = true ∨ v.getType.isIntegerTy = true
        ∨ v.getType.isPointerTy = true)
    ∧ ((structReturnArity v).isSome = true ↔ Idx ≠ unsignedMax)
    ∧ (∀ n, structReturnArity v = some n → Idx < n)

/-! ## Concrete states used to probe iteration order

Creation order assigns dense IDs, but the heap may hand out addresses in any
order; below, the node created first (`ID 0`) lives at address 10 while the
node created second (`ID 1`) lives at address 5. -/

/-- A fresh node with the given creation `ID` and no edges. -/
def exampleNode (i : Nat) : LayoutTypeSystemNode :=
  ⟨i, [], [], ⟨[], 0⟩⟩

/-- Three nodes: IDs 0, 1, 2 at addresses 10, 5, 1 respectively. -/
def exampleLTS : LayoutTypeSystem :=
  ⟨[(1, exampleNode 2), (10, exampleNode 0), (5, exampleNode 1)], [], 100⟩

/-- Add two instance edges (same offset expression) from the node at
address 1 to the nodes at addresses 10 (`ID 0`) and 5 (`ID 1`). -/
def exampleAfterLinks : Option LayoutTypeSystem :=
  match exampleLTS.addInstanceLink (some 1) (some 10) ⟨[], [], 0⟩ with
  | none => none
  | some (S1, _) =>
    match S1.addInstanceLink (some 1) (some 5) ⟨[], [], 0⟩ with
    | none => none
    | some (S2, _) => some S2

/-! # Theorems

Helper lemmas first, then one theorem per claim (with witnesses where the
statement carries hypotheses). -/

/-! ### Unfolding `createCast` (defined by well-founded recursion) -/

/-- Integer-to-integer conversion: a single `CK_IntegralCast` node. -/
theorem createCast_int_int (LHSQualTy : CType) (RHS : CExpr)
    (hL : LHSQualTy.isIntegerType = true)
    (hR : RHS.getType.isIntegerType = true) :
    createCast LHSQualTy RHS
      = some (.cstyleCast .CK_IntegralCast LHSQualTy RHS) := by
  rw [createCast]
  simp [hL, hR]

/-- Integer-to-pointer conversion, fully case-split on the width
comparison (the pointer is 64 bits wide). -/
theorem createCast_ptr_int (pointee : CType) (RHS : CExpr)
    (hR : RHS.getType.isIntegerType = true) :
    createCast (.ptr pointee) RHS
      = (if 64 < typeSize RHS.getType then none
         else if typeSize RHS.getType < 64 then
           some (.cstyleCast .CK_IntegralToPointer (.ptr pointee)
             (.cstyleCast .CK_IntegralCast uintPtrCType RHS))
         else some (.cstyleCast .CK_IntegralToPointer (.ptr pointee) RHS)) := by
  have hu : uintPtrCType.isIntegerType = true := by decide
  have h1 : (CType.ptr pointee).isIntegerType = false := rfl
  have h2 : (CType.ptr pointee).isPointerType = true := rfl
  have h3 : typeSize (CType.ptr pointee) = 64 := rfl
  rw [createCast, createCast_int_int uintPtrCType RHS hu hR]
  simp [h1, h2, h3, hR]

/-! ### C1 — the binary-operator table entry for `Mul` -/

/-- **C1.** The claim states that an IR `Mul` is emitted as the C
multiplication operator `*`. In the source, the `Mul` case of
`getClangBinaryOpKind` lacks a `break` and falls through into the `And`
case, so a `Mul` instruction is mapped to the bitwise-and operator `&`
instead of `BO_Mul` (the `And` row itself is correct). This theorem
evaluates the embedded table at the failing input. -/
theorem mul_opcode_emits_bitwise_and :
    getClangBinaryOpKind Opcode.mul = some BinaryOperatorKind.BO_And ∧
    getClangBinaryOpKind Opcode.mul ≠ some BinaryOperatorKind.BO_Mul ∧
    getClangBinaryOpKind Opcode.andOp = some BinaryOperatorKind.BO_And := by
  decide

/-! ### C4 — 128-bit integer literals -/

/-- **C4.** A 128-bit integer constant is emitted as a 64-bit literal
holding the value's low 64 bits, typed `unsigned long long` when the
literal type is `u128` and `long long` when it is `i128`; no 128-bit
literal is produced. -/
theorem literal_at_128_bits_is_64_bit_literal (v : Nat) :
    getLiteralFromConstant (.constInt 128 v)
      = some (.intLit (v % 2 ^ 64) 64 (.builtin .ULongLong)) ∧
    literalForKind .UInt128 (v % 2 ^ 64)
      = some (.intLit (v % 2 ^ 64) 64 (.builtin .ULongLong)) ∧
    literalForKind .Int128 (v % 2 ^ 64)
      = some (.intLit (v % 2 ^ 64) 64 (.builtin .LongLong)) := by
  have h : v % 2 ^ 64 % 2 ^ 64 = v % 2 ^ 64 := Nat.mod_mod_of_dvd v dvd_rfl
  refine ⟨?_, ?_, ?_⟩ <;>
    simp [getLiteralFromConstant, getQualTypeForIntWidth, literalForKind, h]

/-! ### C10 — constant cast expressions -/

/-- **C10.** For a constant expression of one of the six supported cast
kinds, the factory returns the expression of the cast's operand unchanged
(no cast node is emitted around it), and the operand must itself be a
constant integer — any other operand kind is a fatal failure. -/
theorem constexpr_cast_returns_operand (op : Opcode) (c : LLVMConstant)
    (hop : op = .trunc ∨ op = .zext ∨ op = .sext ∨ op = .inttoptr
           ∨ op = .ptrtoint ∨ op = .bitcast) :
    (∀ b v, c = .constInt b v →
      getLiteralFromConstant (.constExprCast op c) = getLiteralFromConstant c) ∧
    ((∀ b v, c ≠ .constInt b v) →
      getLiteralFromConstant (.constExprCast op c) = none) := by
  rcases hop with h | h | h | h | h | h <;> subst h <;>
    cases c <;> simp [getLiteralFromConstant]

/-- Witness for C10: a `trunc` constant expression over the 32-bit
constant 5. -/
theorem constexpr_cast_returns_operand_witness :
    (Opcode.trunc = .trunc ∨ Opcode.trunc = .zext ∨ Opcode.trunc = .sext
      ∨ Opcode.trunc = .inttoptr ∨ Opcode.trunc = .ptrtoint
      ∨ Opcode.trunc = .bitcast) ∧
    getLiteralFromConstant (.constExprCast .trunc (.constInt 32 5))
      = getLiteralFromConstant (.constInt 32 5) :=
  ⟨Or.inl rfl,
   (constexpr_cast_returns_operand .trunc (.constInt 32 5)
      (Or.inl rfl)).1 32 5 rfl⟩

/-! ### C9 — integer-to-pointer cast synthesis -/

/-- **C9.** Converting an integer-typed expression to a pointer type
requires the integer to be at most pointer-wide (64 bits): a wider integer
is a fatal assertion failure; a strictly narrower integer is first cast to
`uintptr_t` and only then to the destination pointer type; an exactly
pointer-wide integer is cast directly. -/
theorem int_to_pointer_cast_widths (pointee : CType) (RHS : CExpr)
    (hInt : RHS.getType.isIntegerType = true) :
    (64 < typeSize RHS.getType → createCast (.ptr pointee) RHS = none) ∧
    (typeSize RHS.getType = 64 →
      createCast (.ptr pointee) RHS
        = some (.cstyleCast .CK_IntegralToPointer (.ptr pointee) RHS)) ∧
    (typeSize RHS.getType < 64 →
      createCast (.ptr pointee) RHS
        = some (.cstyleCast .CK_IntegralToPointer (.ptr pointee)
            (.cstyleCast .CK_IntegralCast uintPtrCType RHS))) := by
  rw [createCast_ptr_int pointee RHS hInt]
  refine ⟨fun h => ?_, fun h => ?_, fun h => ?_⟩
  · simp [h]
  · simp [h]
  · rw [if_neg (by omega), if_pos h]

/-- Witness for C9: a 32-bit unsigned operand is widened through
`uintptr_t` before the pointer cast. -/
theorem int_to_pointer_cast_widths_witness :
    ((CExpr.intLit 0 32 (.builtin .UInt)).getType.isIntegerType = true) ∧
    createCast (.ptr (.builtin .UChar)) (.intLit 0 32 (.builtin .UInt))
      = some (.cstyleCast .CK_IntegralToPointer (.ptr (.builtin .UChar))
          (.cstyleCast .CK_IntegralCast uintPtrCType
            (.intLit 0 32 (.builtin .UInt)))) :=
  ⟨by decide,
   (int_to_pointer_cast_widths (.builtin .UChar)
      (.intLit 0 32 (.builtin .UInt)) (by decide)).2.2 (by decide)⟩

/-! ### C2 — unsigned integer comparisons -/

/-- Shape of the builder's output on a comparison: once the operator kind
and the casted operands are known, the result is the parenthesized
comparison cast to the translated result type. -/
theorem createRValue_icmp_eq (P : ICmpPred) (LHSIn RHSIn : CExpr)
    (ResType : CType) (bk : BinaryOperatorKind) (L R : CExpr)
    (hbk : getClangBinaryOpKind (.icmp P) = some bk)
    (hops : getCastedBinaryOperands (.icmp P)
        (lvalueToRValue LHSIn) (lvalueToRValue RHSIn) = some (L, R)) :
    createRValueExprForBinaryOperator (.icmp P) LHSIn RHSIn ResType
      = createCast ResType (.paren (.binop bk L.getType L R)) := by
  simp [createRValueExprForBinaryOperator, hbk, hops]

/-- **C2 (counterexample).** The claim states that an unsigned comparison
is emitted with no outer cast on the comparison result — `return (x < y);`.
On the concrete input `icmp ult` over two unsigned 32-bit operands, the
builder wraps the comparison in a parenthesized C-style cast to the
translated `i1` result type, so the root of the emitted expression is a
`CStyleCastExpr`, not the comparison itself. -/
theorem unsigned_icmp_outer_cast_cex :
    createRValueExprForBinaryOperator (.icmp .ult)
        (.declRef 0 (.builtin .UInt)) (.declRef 1 (.builtin .UInt))
        (.builtin .BoolTy)
      = some (.cstyleCast .CK_IntegralCast (.builtin .BoolTy)
          (.paren (.binop .BO_LT (.builtin .UInt)
            (.implicitCast .CK_LValueToRValue (.builtin .UInt)
              (.declRef 0 (.builtin .UInt)))
            (.implicitCast .CK_LValueToRValue (.builtin .UInt)
              (.declRef 1 (.builtin .UInt)))))) ∧
    Option.map CExpr.isCStyleCast
      (createRValueExprForBinaryOperator (.icmp .ult)
        (.declRef 0 (.builtin .UInt)) (.declRef 1 (.builtin .UInt))
        (.builtin .BoolTy)) = some true := by
  have hops : getCastedBinaryOperands (.icmp .ult)
      (lvalueToRValue (.declRef 0 (.builtin .UInt)))
      (lvalueToRValue (.declRef 1 (.builtin .UInt)))
      = some (.implicitCast .CK_LValueToRValue (.builtin .UInt)
                (.declRef 0 (.builtin .UInt)),
              .implicitCast .CK_LValueToRValue (.builtin .UInt)
                (.declRef 1 (.builtin .UInt))) := by decide
  have hmain := createRValue_icmp_eq .ult (.declRef 0 (.builtin .UInt))
    (.declRef 1 (.builtin .UInt)) (.builtin .BoolTy) .BO_LT _ _ rfl hops
  rw [createCast_int_int _ _ (by decide) (by decide)] at hmain
  simp only [CExpr.getType] at hmain
  exact ⟨hmain, by rw [hmain]; rfl⟩

/-- **C2 (amended).** For an integer comparison with an unsigned predicate
over equal-width integer rvalue operands, the operands are left unsigned —
`getCastedBinaryOperands` returns them unchanged, with no signedness
coercion — and the comparison is then parenthesized and cast to the
translated `i1` result type: the emitted expression is
`(ResType)((x < y))` rather than the bare comparison. -/
theorem unsigned_icmp_operands_uncoerced (P : ICmpPred) (LHS RHS : CExpr)
    (ResType : CType)
    (hP : P.isSigned = false)
    (hL : LHS.getType.isIntegerType = true)
    (hR : RHS.getType.isIntegerType = true)
    (hSize : typeSize LHS.getType = typeSize RHS.getType)
    (hLlv : LHS.isLValue = false) (hRlv : RHS.isLValue = false) :
    getCastedBinaryOperands (.icmp P) LHS RHS = some (LHS, RHS) ∧
    ∃ bk, getClangBinaryOpKind (.icmp P) = some bk ∧
      createRValueExprForBinaryOperator (.icmp P) LHS RHS ResType
        = createCast ResType (.paren (.binop bk LHS.getType LHS RHS)) := by
  have hops : getCastedBinaryOperands (.icmp P) LHS RHS = some (LHS, RHS) := by
    simp [getCastedBinaryOperands, hL, hR, hSize, hP]
  refine ⟨hops, ?_⟩
  obtain ⟨bk, hbk⟩ : ∃ bk, getClangBinaryOpKind (.icmp P) = some bk := by
    cases P <;> exact ⟨_, rfl⟩
  have hw1 : lvalueToRValue LHS = LHS := by simp [lvalueToRValue, hLlv]
  have hw2 : lvalueToRValue RHS = RHS := by simp [lvalueToRValue, hRlv]
  refine ⟨bk, hbk, ?_⟩
  exact createRValue_icmp_eq P LHS RHS ResType bk LHS RHS hbk
    (by rw [hw1, hw2]; exact hops)

/-- Witness for the amended C2: `icmp ult` over two unsigned 32-bit
literals. -/
theorem unsigned_icmp_operands_uncoerced_witness :
    (ICmpPred.ult.isSigned = false) ∧
    getCastedBinaryOperands (.icmp .ult)
        (.intLit 1 32 (.builtin .UInt)) (.intLit 2 32 (.builtin .UInt))
      = some (.intLit 1 32 (.builtin .UInt), .intLit 2 32 (.builtin .UInt)) :=
  ⟨rfl,
   (unsigned_icmp_operands_uncoerced .ult
      (.intLit 1 32 (.builtin .UInt)) (.intLit 2 32 (.builtin .UInt))
      (.builtin .BoolTy) rfl (by decide) (by decide) (by decide)
      (by decide) (by decide)).1⟩

/-! ### Order lemmas for neighbor links -/

theorem linkLtb_irrefl (x : Nat × Nat) : linkLtb x x = false := by
  simp [linkLtb]

theorem linkLtb_total {x y : Nat × Nat} (h : ¬ x = y) :
    linkLtb x y = true ∨ linkLtb y x = true := by
  rcases x with ⟨a, b⟩
  rcases y with ⟨c, d⟩
  simp only [linkLtb, Bool.or_eq_true, Bool.and_eq_true, decide_eq_true_eq,
    Prod.mk.injEq] at *
  omega

theorem linkLtb_trans {x y z : Nat × Nat} (h1 : linkLtb x y = true)
    (h2 : linkLtb y z = true) : linkLtb x z = true := by
  rcases x with ⟨a, b⟩
  rcases y with ⟨c, d⟩
  rcases z with ⟨e, f⟩
  simp only [linkLtb, Bool.or_eq_true, Bool.and_eq_true,
    decide_eq_true_eq] at *
  omega

theorem linkLtb_asymm {x y : Nat × Nat} (h : linkLtb x y = true) :
    linkLtb y x = false := by
  rcases x with ⟨a, b⟩
  rcases y with ⟨c, d⟩
  simp only [linkLtb, Bool.or_eq_true, Bool.and_eq_true, decide_eq_true_eq,
    Bool.or_eq_false_iff, Bool.and_eq_false_iff, decide_eq_false_iff_not] at *
  omega

/-- In a sorted list, the head is below every element of the tail. -/
theorem sorted_head_lt {y : Nat × Nat} {ys : List (Nat × Nat)}
    (h : LinksSorted (y :: ys)) {x : Nat × Nat} (hx : x ∈ ys) :
    linkLtb y x = true := by
  induction ys generalizing y with
  | nil => cases hx
  | cons z zs ih =>
    rcases List.chain'_cons.mp h with ⟨hyz, htail⟩
    rcases List.mem_cons.mp hx with rfl | hx'
    · exact hyz
    · exact linkLtb_trans hyz (ih htail hx')

/-! ### `insertLink` lemmas -/

theorem insertLink_mem (x y : Nat × Nat) (l : List (Nat × Nat)) :
    y ∈ (insertLink x l).1 ↔ y = x ∨ y ∈ l := by
  induction l with
  | nil => simp [insertLink]
  | cons z zs ih =>
    rw [insertLink]
    split
    · simp only [List.mem_cons]
      try tauto
    · split
      · rename_i hxz
        subst hxz
        simp only [List.mem_cons]
        try tauto
      · simp only [List.mem_cons, ih]
        try tauto

theorem insertLink_self_mem (x : Nat × Nat) (l : List (Nat × Nat)) :
    x ∈ (insertLink x l).1 :=
  (insertLink_mem x x l).mpr (Or.inl rfl)

theorem insertLink_not_mem_snd (x : Nat × Nat) (l : List (Nat × Nat))
    (h : x ∉ l) : (insertLink x l).2 = true := by
  induction l with
  | nil => rfl
  | cons z zs ih =>
    rw [insertLink]
    split
    · rfl
    · split
      · rename_i hxz
        exact absurd (hxz ▸ List.mem_cons_self z zs) h
      · exact ih (fun hm => h (List.mem_cons_of_mem z hm))

theorem insertLink_mem_eq (x : Nat × Nat) (l : List (Nat × Nat))
    (hs : LinksSorted l) (hm : x ∈ l) : insertLink x l = (l, false) := by
  induction l with
  | nil => cases hm
  | cons z zs ih =>
    rcases List.mem_cons.mp hm with rfl | hx'
    · rw [insertLink, if_neg (by simp [linkLtb_irrefl]), if_pos rfl]
    · have hzx : linkLtb z x = true := sorted_head_lt hs hx'
      have hne : ¬ x = z := by
        intro h
        subst h
        simp [linkLtb_irrefl] at hzx
      rw [insertLink, if_neg (by simp [linkLtb_asymm hzx]), if_neg hne,
        ih hs.tail hx']

theorem insertLink_headq (x : Nat × Nat) (l : List (Nat × Nat)) :
    ((insertLink x l).1).head? = some x ∨ ((insertLink x l).1).head? = l.head? := by
  cases l with
  | nil => exact Or.inl rfl
  | cons z zs =>
    rw [insertLink]
    split
    · exact Or.inl rfl
    · split
      · exact Or.inr rfl
      · exact Or.inr rfl

theorem insertLink_sorted (x : Nat × Nat) (l : List (Nat × Nat))
    (h : LinksSorted l) : LinksSorted (insertLink x l).1 := by
  induction l with
  | nil => simp [insertLink, LinksSorted]
  | cons z zs ih =>
    rw [insertLink]
    split
    · rename_i hlt
      exact List.chain'_cons.mpr ⟨hlt, h⟩
    · split
      · exact h
      · rename_i hnlt hne
        refine List.chain'_cons'.mpr ⟨?_, ih (List.Chain'.tail h)⟩
        intro c hc
        rcases insertLink_headq x zs with hh | hh
        · rw [hh] at hc
          cases hc
          rcases linkLtb_total hne with hcase | hcase
          · exact absurd hcase hnlt
          · exact hcase
        · rw [hh] at hc
          exact (List.chain'_cons'.mp h).1 c hc

/-! ### Lookup and update lemmas for the node map -/

theorem lookupNode_mem {l : List (Nat × LayoutTypeSystemNode)} {a : Nat}
    {n : LayoutTypeSystemNode} (h : lookupNode l a = some n) : (a, n) ∈ l := by
  induction l with
  | nil => simp [lookupNode] at h
  | cons p ps ih =>
    rcases p with ⟨k, m⟩
    rw [lookupNode] at h
    split at h
    · rename_i hk
      cases h
      subst hk
      exact List.mem_cons_self _ _
    · exact List.mem_cons_of_mem _ (ih h)

theorem lookupNode_eq_of_mem {l : List (Nat × LayoutTypeSystemNode)}
    (hnd : (l.map Prod.fst).Nodup) {a : Nat} {n : LayoutTypeSystemNode}
    (h : (a, n) ∈ l) : lookupNode l a = some n := by
  induction l with
  | nil => cases h
  | cons p ps ih =>
    rcases p with ⟨k, m⟩
    rcases List.mem_cons.mp h with heq | htail
    · cases heq
      rw [lookupNode, if_pos rfl]
    · have hk : ¬ k = a := by
        intro hka
        subst hka
        exact (List.nodup_cons.mp hnd).1
          (List.mem_map.mpr ⟨(k, n), htail, rfl⟩)
      rw [lookupNode, if_neg hk]
      exact ih (List.nodup_cons.mp hnd).2 htail

theorem lookup_updNode_self (l : List (Nat × LayoutTypeSystemNode)) (a : Nat)
    (f : LayoutTypeSystemNode → LayoutTypeSystemNode) :
    lookupNode (updNode l a f) a = (lookupNode l a).map f := by
  induction l with
  | nil => rfl
  | cons p ps ih =>
    rcases p with ⟨k, m⟩
    by_cases hk : k = a
    · subst hk
      rw [updNode, if_pos rfl, lookupNode, if_pos rfl, lookupNode, if_pos rfl]
      rfl
    · rw [updNode, if_neg hk, lookupNode, if_neg hk, lookupNode, if_neg hk, ih]

theorem lookup_updNode_ne (l : List (Nat × LayoutTypeSystemNode)) (a b : Nat)
    (f : LayoutTypeSystemNode → LayoutTypeSystemNode) (h : ¬ b = a) :
    lookupNode (updNode l a f) b = lookupNode l b := by
  induction l with
  | nil => rfl
  | cons p ps ih =>
    rcases p with ⟨k, m⟩
    by_cases hk : k = a
    · subst hk
      have hkb : ¬ k = b := fun hkb => h (hkb ▸ rfl)
      rw [updNode, if_pos rfl, lookupNode, if_neg hkb, lookupNode, if_neg hkb,
        ih]
    · by_cases hkb : k = b
      · subst hkb
        rw [updNode, if_neg hk, lookupNode, if_pos rfl, lookupNode, if_pos rfl]
      · rw [updNode, if_neg hk, lookupNode, if_neg hkb, lookupNode,
          if_neg hkb, ih]

theorem updNode_keys (l : List (Nat × LayoutTypeSystemNode)) (a : Nat)
    (f : LayoutTypeSystemNode → LayoutTypeSystemNode) :
    (updNode l a f).map Prod.fst = l.map Prod.fst := by
  induction l with
  | nil => rfl
  | cons p ps ih =>
    rcases p with ⟨k, m⟩
    by_cases hk : k = a
    · rw [updNode, if_pos hk, List.map_cons, List.map_cons, ih]
    · rw [updNode, if_neg hk, List.map_cons, List.map_cons, ih]

theorem updNode_not_mem (l : List (Nat × LayoutTypeSystemNode)) (a : Nat)
    (f : LayoutTypeSystemNode → LayoutTypeSystemNode)
    (h : a ∉ l.map Prod.fst) : updNode l a f = l := by
  induction l with
  | nil => rfl
  | cons p ps ih =>
    rcases p with ⟨k, m⟩
    simp only [List.map_cons, List.mem_cons] at h
    push_neg at h
    have hk : ¬ k = a := fun hka => h.1 hka.symm
    rw [updNode, if_neg hk, ih h.2]

theorem updNode_id {l : List (Nat × LayoutTypeSystemNode)}
    (hnd : (l.map Prod.fst).Nodup) (a : Nat)
    (f : LayoutTypeSystemNode → LayoutTypeSystemNode)
    (h : ∀ n, lookupNode l a = some n → f n = n) : updNode l a f = l := by
  induction l with
  | nil => rfl
  | cons p ps ih =>
    rcases p with ⟨k, m⟩
    by_cases hk : k = a
    · subst hk
      have hfm : f m = m := h m (by rw [lookupNode, if_pos rfl])
      have hknot : k ∉ ps.map Prod.fst := (List.nodup_cons.mp hnd).1
      rw [updNode, if_pos rfl, hfm, updNode_not_mem ps k f hknot]
    · rw [updNode, if_neg hk,
        ih (List.nodup_cons.mp hnd).2
          (fun n hn => h n (by rw [lookupNode, if_neg hk]; exact hn))]

/-! ### Tag-interning lemmas -/

theorem cmpInt_self (a : Int) : cmpInt a a = .eq := by
  simp [cmpInt]

theorem cmpOptInt_self (a : Option Int) : cmpOptInt a a = .eq := by
  cases a <;> simp [cmpOptInt, cmpInt_self]

theorem cmpListLex_self {α : Type} (c : α → α → Ordering)
    (h : ∀ a, c a a = .eq) (l : List α) : cmpListLex c l l = .eq := by
  induction l with
  | nil => rfl
  | cons a as ih => rw [cmpListLex, h a, ih]

theorem offsetExpression_scompare_self (o : OffsetExpression) :
    o.scompare o = .eq := by
  rw [OffsetExpression.scompare, cmpInt_self,
    cmpListLex_self cmpInt cmpInt_self, cmpListLex_self cmpOptInt cmpOptInt_self]

theorem typeLinkTag_scompare_self (t : TypeLinkTag) : t.scompare t = .eq := by
  rw [TypeLinkTag.scompare, cmpInt_self, offsetExpression_scompare_self]

theorem findTagAddr_append_of_none {l1 : List (Nat × TypeLinkTag)}
    {t : TypeLinkTag} (h : findTagAddr l1 t = none)
    (l2 : List (Nat × TypeLinkTag)) :
    findTagAddr (l1 ++ l2) t = findTagAddr l2 t := by
  induction l1 with
  | nil => rfl
  | cons p ps ih =>
    rcases p with ⟨a, u⟩
    rw [findTagAddr] at h
    split at h
    · cases h
    · rename_i hne
      rw [List.cons_append, findTagAddr, if_neg hne]
      exact ih h

theorem internTag_found (S : LayoutTypeSystem) (t : TypeLinkTag) :
    findTagAddr (internTag S t).1.LinkTags t = some (internTag S t).2 := by
  rw [internTag]
  cases hf : findTagAddr S.LinkTags t with
  | some a => exact hf
  | none =>
    show findTagAddr (S.LinkTags ++ [(S.NextTagAddr, t)]) t = some S.NextTagAddr
    rw [findTagAddr_append_of_none hf, findTagAddr,
      if_pos (typeLinkTag_scompare_self t)]

theorem internTag_layouts (S : LayoutTypeSystem) (t : TypeLinkTag) :
    (internTag S t).1.Layouts = S.Layouts := by
  rw [internTag]
  cases hf : findTagAddr S.LinkTags t <;> rfl

theorem internTag_of_found {S : LayoutTypeSystem} {t : TypeLinkTag} {a : Nat}
    (h : findTagAddr S.LinkTags t = some a) : internTag S t = (S, a) := by
  rw [internTag, h]

/-! ### Well-formedness transfer -/

theorem WFLTS_sorted_of_lookup {S : LayoutTypeSystem} {a : Nat}
    {n : LayoutTypeSystemNode} (hWF : WFLTS S)
    (h : lookupNode S.Layouts a = some n) :
    LinksSorted n.Successors ∧ LinksSorted n.Predecessors :=
  hWF.2 (a, n) (lookupNode_mem h)

/-- Updating one node's successor list and one node's predecessor list with
sorted lists preserves well-formedness. -/
theorem WFLayouts_upd2 {l : List (Nat × LayoutTypeSystemNode)}
    (h : WFLayouts l) (src tgt : Nat) (l1 l2 : List (Nat × Nat))
    (h1 : LinksSorted l1) (h2 : LinksSorted l2) :
    WFLayouts (updNode (updNode l src (fun n => { n with Successors := l1 }))
      tgt (fun n => { n with Predecessors := l2 })) := by
  obtain ⟨hnd, hs⟩ := h
  have hnd2 : ((updNode (updNode l src
      (fun n => { n with Successors := l1 })) tgt
      (fun n => { n with Predecessors := l2 })).map Prod.fst).Nodup := by
    rw [updNode_keys, updNode_keys]
    exact hnd
  refine ⟨hnd2, ?_⟩
  intro p hp
  rcases p with ⟨c, n⟩
  have hlook := lookupNode_eq_of_mem hnd2 hp
  by_cases hct : c = tgt
  · subst hct
    rw [lookup_updNode_self] at hlook
    cases hmid : lookupNode (updNode l src
        (fun n => { n with Successors := l1 })) c with
    | none => rw [hmid] at hlook; cases hlook
    | some m =>
      rw [hmid] at hlook
      injection hlook with hlook
      subst hlook
      refine ⟨?_, h2⟩
      show LinksSorted m.Successors
      by_cases hcs : c = src
      · subst hcs
        rw [lookup_updNode_self] at hmid
        cases horig : lookupNode l c with
        | none => rw [horig] at hmid; cases hmid
        | some m0 =>
          rw [horig] at hmid
          injection hmid with hmid
          rw [← hmid]
          exact h1
      · rw [lookup_updNode_ne _ _ _ _ hcs] at hmid
        exact (hs (c, m) (lookupNode_mem hmid)).1
  · rw [lookup_updNode_ne _ _ _ _ hct] at hlook
    by_cases hcs : c = src
    · subst hcs
      rw [lookup_updNode_self] at hlook
      cases horig : lookupNode l c with
      | none => rw [horig] at hlook; cases hlook
      | some m0 =>
        rw [horig] at hlook
        injection hlook with hlook
        subst hlook
        exact ⟨h1, (hs (c, m0) (lookupNode_mem horig)).2⟩
    · rw [lookup_updNode_ne _ _ _ _ hcs] at hlook
      exact hs (c, n) (lookupNode_mem hlook)

/-! ### Characterization of `addLink` on two distinct owned nodes -/

theorem addLink_some {S : LayoutTypeSystem} {x y : Nat}
    {nx ny : LayoutTypeSystemNode} {tag : TypeLinkTag} (hxy : ¬ x = y)
    (hx : lookupNode S.Layouts x = some nx)
    (hy : lookupNode S.Layouts y = some ny) :
    S.addLink (some x) (some y) tag = some (S.addLinkCore x y nx ny tag) := by
  rw [LayoutTypeSystem.addLink, if_neg hxy, hx, hy]

theorem addLinkCore_lookup_src (S : LayoutTypeSystem) (x y : Nat)
    (nx ny : LayoutTypeSystemNode) (tag : TypeLinkTag) (hxy : ¬ x = y) :
    lookupNode (S.addLinkCore x y nx ny tag).1.Layouts x
      = Option.map (fun n =>
          { n with Successors :=
              (insertLink (y, (internTag S tag).2) nx.Successors).1 })
          (lookupNode S.Layouts x) := by
  show lookupNode (updNode (updNode (internTag S tag).1.Layouts x _) y _) x = _
  rw [lookup_updNode_ne _ _ _ _ hxy, lookup_updNode_self, internTag_layouts]

theorem addLinkCore_lookup_tgt (S : LayoutTypeSystem) (x y : Nat)
    (nx ny : LayoutTypeSystemNode) (tag : TypeLinkTag) (hyx : ¬ y = x) :
    lookupNode (S.addLinkCore x y nx ny tag).1.Layouts y
      = Option.map (fun n =>
          { n with Predecessors :=
              (insertLink (x, (internTag S tag).2) ny.Predecessors).1 })
          (lookupNode S.Layouts y) := by
  show lookupNode (updNode (updNode (internTag S tag).1.Layouts x _) y _) y = _
  rw [lookup_updNode_self, lookup_updNode_ne _ _ _ _ hyx, internTag_layouts]

theorem addLinkCore_lookup_other (S : LayoutTypeSystem) (x y : Nat)
    (nx ny : LayoutTypeSystemNode) (tag : TypeLinkTag) (z : Nat)
    (hzx : ¬ z = x) (hzy : ¬ z = y) :
    lookupNode (S.addLinkCore x y nx ny tag).1.Layouts z
      = lookupNode S.Layouts z := by
  show lookupNode (updNode (updNode (internTag S tag).1.Layouts x _) y _) z = _
  rw [lookup_updNode_ne _ _ _ _ hzy, lookup_updNode_ne _ _ _ _ hzx,
    internTag_layouts]

theorem addLinkCore_linkTags (S : LayoutTypeSystem) (x y : Nat)
    (nx ny : LayoutTypeSystemNode) (tag : TypeLinkTag) :
    (S.addLinkCore x y nx ny tag).1.LinkTags
      = (internTag S tag).1.LinkTags := rfl

theorem addLinkCore_snd (S : LayoutTypeSystem) (x y : Nat)
    (nx ny : LayoutTypeSystemNode) (tag : TypeLinkTag) :
    (S.addLinkCore x y nx ny tag).2
      = (some (internTag S tag).2,
         (insertLink (y, (internTag S tag).2) nx.Successors).2
           || (insertLink (x, (internTag S tag).2) ny.Predecessors).2) := rfl

theorem addLinkCore_keys (S : LayoutTypeSystem) (x y : Nat)
    (nx ny : LayoutTypeSystemNode) (tag : TypeLinkTag) :
    (S.addLinkCore x y nx ny tag).1.Layouts.map Prod.fst
      = S.Layouts.map Prod.fst := by
  show (updNode (updNode (internTag S tag).1.Layouts x _) y _).map Prod.fst = _
  rw [updNode_keys, updNode_keys, internTag_layouts]

theorem addLinkCore_internTag (S : LayoutTypeSystem) (x y : Nat)
    (nx ny : LayoutTypeSystemNode) (tag : TypeLinkTag) :
    internTag (S.addLinkCore x y nx ny tag).1 tag
      = ((S.addLinkCore x y nx ny tag).1, (internTag S tag).2) := by
  apply internTag_of_found
  rw [addLinkCore_linkTags]
  exact internTag_found S tag

theorem addLinkCore_WF {S : LayoutTypeSystem} {x y : Nat}
    {nx ny : LayoutTypeSystemNode} (tag : TypeLinkTag) (hWF : WFLTS S)
    (hx : lookupNode S.Layouts x = some nx)
    (hy : lookupNode S.Layouts y = some ny) :
    WFLTS (S.addLinkCore x y nx ny tag).1 := by
  have hsx := (WFLTS_sorted_of_lookup hWF hx).1
  have hpy := (WFLTS_sorted_of_lookup hWF hy).2
  show WFLayouts (updNode (updNode (internTag S tag).1.Layouts x _) y _)
  rw [internTag_layouts]
  exact WFLayouts_upd2 hWF x y _ _
    (insertLink_sorted _ _ hsx) (insertLink_sorted _ _ hpy)

/-- `S.updAt a f` is the identity when `f` fixes the node stored at `a`. -/
theorem updAt_id {S : LayoutTypeSystem} {a : Nat}
    {f : LayoutTypeSystemNode → LayoutTypeSystemNode}
    (hnd : (S.Layouts.map Prod.fst).Nodup)
    (h : ∀ n, lookupNode S.Layouts a = some n → f n = n) : S.updAt a f = S := by
  show { S with Layouts := updNode S.Layouts a f } = S
  rw [updNode_id hnd a f h]

/-- Every successful `addLink` preserves well-formedness. -/
theorem addLink_WF {S S' : LayoutTypeSystem} {Src Tgt : Option Nat}
    {Tag : TypeLinkTag} {r : Option Nat × Bool} (hWF : WFLTS S)
    (h : S.addLink Src Tgt Tag = some (S', r)) : WFLTS S' := by
  rcases Src with _ | src
  · rcases Tgt with _ | tgt <;>
    · have h' : some (S, ((none : Option Nat), false)) = some (S', r) := h
      injection h' with h''
      injection h'' with h1 h2
      rw [← h1]
      exact hWF
  rcases Tgt with _ | tgt
  · have h' : some (S, ((none : Option Nat), false)) = some (S', r) := h
    injection h' with h''
    injection h'' with h1 h2
    rw [← h1]
    exact hWF
  rw [LayoutTypeSystem.addLink] at h
  by_cases hst : src = tgt
  · rw [if_pos hst] at h
    injection h with h'
    injection h' with h1 h2
    rw [← h1]
    exact hWF
  rw [if_neg hst] at h
  cases hx : lookupNode S.Layouts src with
  | none => rw [hx] at h; cases hy : lookupNode S.Layouts tgt <;>
      rw [hy] at h <;> cases h
  | some nx =>
    cases hy : lookupNode S.Layouts tgt with
    | none => rw [hx, hy] at h; cases h
    | some ny =>
      rw [hx, hy] at h
      injection h with h'
      have h1 : (S.addLinkCore src tgt nx ny Tag).1 = S' := congrArg Prod.fst h'
      rw [← h1]
      exact addLinkCore_WF Tag hWF hx hy

/-! ### C7 — null endpoints and self-links -/

/-- **C7.** For every link-insertion entry point (`addEqualityLink`,
`addInheritanceLink`, `addInstanceLink`), a null endpoint or a self-link
leaves the graph unchanged and returns `(nullptr, false)`. -/
theorem null_or_self_links_are_noops (S : LayoutTypeSystem)
    (Src Tgt : Option Nat) (h : Src = none ∨ Tgt = none ∨ Src = Tgt) :
    S.addEqualityLink Src Tgt = some (S, (none, false)) ∧
    S.addInheritanceLink Src Tgt = some (S, (none, false)) ∧
    ∀ OE, S.addInstanceLink Src Tgt OE = some (S, (none, false)) := by
  have hAdd : ∀ Tag, S.addLink Src Tgt Tag = some (S, (none, false)) := by
    intro Tag
    rcases h with h | h | h
    · subst h
      rcases Tgt with _ | t <;> rfl
    · subst h
      rcases Src with _ | s <;> rfl
    · subst h
      rcases Src with _ | s
      · rfl
      · rw [LayoutTypeSystem.addLink, if_pos rfl]
  have hAdd' : ∀ Tag, S.addLink Tgt Src Tag = some (S, (none, false)) := by
    intro Tag
    rcases h with h | h | h
    · subst h
      rcases Tgt with _ | t <;> rfl
    · subst h
      rcases Src with _ | s <;> rfl
    · rw [← h]
      rcases Src with _ | s
      · rfl
      · rw [LayoutTypeSystem.addLink, if_pos rfl]
  refine ⟨?_, hAdd _, fun OE => hAdd _⟩
  simp [LayoutTypeSystem.addEqualityLink, hAdd, hAdd']

/-- Witness for C7: a self-link on the node at address 5. -/
theorem null_or_self_links_are_noops_witness :
    ((some 5 : Option Nat) = none ∨ (some 5 : Option Nat) = none
      ∨ (some 5 : Option Nat) = some 5) ∧
    exampleLTS.addEqualityLink (some 5) (some 5)
      = some (exampleLTS, (none, false)) :=
  ⟨Or.inr (Or.inr rfl),
   (null_or_self_links_are_noops exampleLTS (some 5) (some 5)
      (Or.inr (Or.inr rfl))).1⟩

/-! ### C8 — the Layout-Type Key constructor -/

/-- **C8.** The `LayoutTypePtr` constructor succeeds exactly under the
spec's precondition — non-null value that is a function, integer-typed or
pointer-typed; tuple-field index present iff the value is a function
returning a struct, and then within the struct's arity — and a constructed
key holds exactly the given value and index (the class has no mutating
member, so the key is immutable). -/
theorem layout_type_key_ctor_iff (Val : Option LLVMValue) (Idx : Nat) :
    ((LayoutTypePtr.make Val Idx).isSome ↔ specLayoutTypeKeyValid Val Idx) ∧
    (∀ k, LayoutTypePtr.make Val Idx = some k
      → Val = some k.V ∧ k.FieldIdx = Idx) := by
  constructor
  · rcases Val with _ | v
    · simp [LayoutTypePtr.make, specLayoutTypeKeyValid]
    · rw [LayoutTypePtr.make]
      simp only [specLayoutTypeKeyValid, Option.some.injEq, exists_eq_left']
      by_cases hA : (v.isFunction || v.getType.isIntegerTy
          || v.getType.isPointerTy) = true
      · rw [if_pos hA]
        have hA' : v.isFunction = true ∨ v.getType.isIntegerTy = true
            ∨ v.getType.isPointerTy = true := by
          simpa [or_assoc] using hA
        cases hB : structReturnArity v with
        | none =>
          simp only [hB, Option.isSome_none, Bool.false_xor, Bool.false_and]
          by_cases hI : (Idx == unsignedMax) = true
          · have hIdx : Idx = unsignedMax := by simpa using hI
            rw [if_pos hI, if_neg (by simp)]
            simp only [Option.isSome_some, eq_self_iff_true, true_iff]
            refine ⟨hA', ?_, ?_⟩
            · constructor
              · intro hfalse
                cases hfalse
              · intro hne
                exact absurd hIdx hne
            · intro n hn
              cases hn
          · rw [if_neg hI]
            have hbf : (Idx == unsignedMax) = false := by
              revert hI
              cases hb : (Idx == unsignedMax) <;> simp
            have hne : ¬ Idx = unsignedMax := by simpa using hbf
            simp only [Option.isSome_none]
            constructor
            · intro hh
              cases hh
            · rintro ⟨_, hiff, _⟩
              cases hiff.mpr hne
        | some nElems =>
          simp only [hB, Option.isSome_some, Bool.true_xor, Option.getD_some,
            Bool.true_and]
          by_cases hI : (Idx == unsignedMax) = true
          · have hIdx : Idx = unsignedMax := by simpa using hI
            rw [hI, show (!true) = false from rfl, if_neg (by simp)]
            simp only [Option.isSome_none]
            constructor
            · intro hh
              cases hh
            · rintro ⟨_, hiff, _⟩
              exact absurd hIdx (hiff.mp trivial)
          · have hbf : (Idx == unsignedMax) = false := by
              revert hI
              cases hb : (Idx == unsignedMax) <;> simp
            have hne : ¬ Idx = unsignedMax := by simpa using hbf
            rw [hbf, show (!false) = true from rfl, if_pos rfl]
            by_cases hlt : Idx < nElems
            · rw [show decide (Idx < nElems) = true from by simp [hlt],
                show (!true) = false from rfl, if_neg (by simp)]
              simp only [Option.isSome_some, eq_self_iff_true, true_iff]
              refine ⟨hA', hne, ?_⟩
              intro n hn
              injection hn with hn
              subst hn
              exact hlt
            · rw [show decide (Idx < nElems) = false from by simp [hlt],
                show (!false) = true from rfl, if_pos rfl]
              simp only [Option.isSome_none]
              constructor
              · intro hh
                cases hh
              · rintro ⟨_, _, hall⟩
                exact absurd (hall nElems rfl) hlt
      · rw [if_neg hA]
        simp only [Option.isSome_none]
        constructor
        · intro hh
          cases hh
        · rintro ⟨hdisj, _, _⟩
          exact (hA (by simpa [or_assoc] using hdisj)).elim
  · intro k hk
    rcases Val with _ | v
    · cases hk
    · simp only [LayoutTypePtr.make] at hk
      split at hk
      · split at hk
        · split at hk
          · cases hk
          · injection hk with hk
            subst hk
            exact ⟨rfl, rfl⟩
        · cases hk
      · cases hk

/-- Witness for C8: a function returning a three-element struct with
tuple-field index 1. -/
theorem layout_type_key_ctor_iff_witness :
    LayoutTypePtr.make (some (.functionValue (.structType 3))) 1
      = some ⟨.functionValue (.structType 3), 1⟩ ∧
    (some (.functionValue (.structType 3)) : Option LLVMValue)
      = some (LayoutTypePtr.mk (.functionValue (.structType 3)) 1).V ∧
    (LayoutTypePtr.mk (.functionValue (.structType 3)) 1).FieldIdx = 1 :=
  ⟨by decide,
   (layout_type_key_ctor_iff (some (.functionValue (.structType 3))) 1).2
     ⟨.functionValue (.structType 3), 1⟩ (by decide)⟩

/-! ### C3 — neighbor iteration order -/

/-- **C3 (counterexample).** The claim states that the successor sets
iterate in ascending (neighbor-id, tag-handle) order. The neighbor sets are
`std::set`s over `(node pointer, tag pointer)` pairs, so iteration follows
the nodes' allocation addresses, not their creation IDs. In `exampleLTS`
the node with ID 0 lives at address 10 and the node with ID 1 at address 5;
after adding instance edges to both, the successor walk of the node at
address 1 visits the IDs in the order `[1, 0]`, which is not ascending. -/
theorem succ_iteration_not_in_id_order_cex :
    Option.map (fun S => succNeighborIDs S 1) exampleAfterLinks
      = some [1, 0] ∧
    ¬ List.Chain' (· ≤ ·) [1, 0] := by
  refine ⟨rfl, ?_⟩
  intro h
  have h10 := (List.chain'_cons.mp h).1
  omega

/-- **C3 (amended).** Edge sets are ordered sets over the
`(neighbor address, tag address)` pair: every successful link insertion
keeps every node's successor and predecessor lists strictly ascending in
that pointer order (`WFLTS`), so iteration within one run is deterministic
for a fixed address assignment — but it is keyed by addresses, not by node
IDs. -/
theorem edge_sets_sorted_by_address_pair (S : LayoutTypeSystem)
    (hWF : WFLTS S) :
    (∀ Src Tgt S' r, S.addEqualityLink Src Tgt = some (S', r) → WFLTS S') ∧
    (∀ Src Tgt S' r, S.addInheritanceLink Src Tgt = some (S', r) → WFLTS S') ∧
    (∀ Src Tgt OE S' r, S.addInstanceLink Src Tgt OE = some (S', r)
      → WFLTS S') := by
  refine ⟨?_, ?_, ?_⟩
  · intro Src Tgt S' r h
    rw [LayoutTypeSystem.addEqualityLink] at h
    cases hf : S.addLink Src Tgt TypeLinkTag.equalityTag with
    | none => simp only [hf] at h; cases h
    | some p =>
      rcases p with ⟨S1, rF⟩
      simp only [hf] at h
      cases hb : S1.addLink Tgt Src TypeLinkTag.equalityTag with
      | none => simp only [hb] at h; cases h
      | some q =>
        rcases q with ⟨S2, rB⟩
        simp only [hb] at h
        split at h
        · injection h with h'
          have h1 : S2 = S' := congrArg Prod.fst h'
          rw [← h1]
          exact addLink_WF (addLink_WF hWF hf) hb
        · cases h
  · intro Src Tgt S' r h
    exact addLink_WF hWF h
  · intro Src Tgt OE S' r h
    exact addLink_WF hWF h

/-- Witness for the amended C3: one instance-edge insertion on the concrete
three-node state. -/
theorem edge_sets_sorted_by_address_pair_witness :
    WFLTS exampleLTS ∧
    WFLTS (LayoutTypeSystem.mk
      [(1, ⟨2, [(10, 100)], [], ⟨[], 0⟩⟩),
       (10, ⟨0, [], [(1, 100)], ⟨[], 0⟩⟩),
       (5, ⟨1, [], [], ⟨[], 0⟩⟩)]
      [(100, ⟨⟨[], [], 0⟩, .LK_Instance⟩)] 101) :=
  ⟨by decide,
   (edge_sets_sorted_by_address_pair exampleLTS (by decide)).2.2
     (some 1) (some 10) ⟨[], [], 0⟩
     (LayoutTypeSystem.mk
       [(1, ⟨2, [(10, 100)], [], ⟨[], 0⟩⟩),
        (10, ⟨0, [], [(1, 100)], ⟨[], 0⟩⟩),
        (5, ⟨1, [], [], ⟨[], 0⟩⟩)]
       [(100, ⟨⟨[], [], 0⟩, .LK_Instance⟩)] 101)
     (some 100, true) (by decide)⟩

/-! ### C6 — instance-edge interning and idempotence -/

/-- **C6.** Calling `addInstanceLink(A, B, OE)` twice with the same offset
expression creates a single edge: both calls return the same interned tag
handle, `was_new` is `true` on the first call and `false` on the second,
and the second call leaves the state exactly as after the first. -/
theorem add_instance_twice_single_edge
    (S : LayoutTypeSystem) (a b : Nat) (na : LayoutTypeSystemNode)
    (OE : OffsetExpression) (hWF : WFLTS S) (hab : ¬ a = b)
    (ha : lookupNode S.Layouts a = some na)
    (hb : (lookupNode S.Layouts b).isSome = true)
    (hfresh : ∀ p ∈ na.Successors, ¬ p.1 = b) :
    ∃ S1 T,
      S.addInstanceLink (some a) (some b) OE = some (S1, (some T, true)) ∧
      S1.addInstanceLink (some a) (some b) OE = some (S1, (some T, false)) := by
  obtain ⟨nb, hbm⟩ : ∃ nb, lookupNode S.Layouts b = some nb := by
    cases hx : lookupNode S.Layouts b with
    | none => rw [hx] at hb; cases hb
    | some v => exact ⟨v, rfl⟩
  have hba : ¬ b = a := fun hh => hab hh.symm
  have hsa : LinksSorted na.Successors := (WFLTS_sorted_of_lookup hWF ha).1
  have hpb : LinksSorted nb.Predecessors := (WFLTS_sorted_of_lookup hWF hbm).2
  set tag : TypeLinkTag := TypeLinkTag.instanceTag OE with htag
  set T : Nat := (internTag S tag).2 with hT
  set C1 : LayoutTypeSystem := (S.addLinkCore a b na nb tag).1 with hC1
  -- the first call
  have h1 : S.addInstanceLink (some a) (some b) OE
      = some (S.addLinkCore a b na nb tag) := by
    rw [LayoutTypeSystem.addInstanceLink, addLink_some hab ha hbm]
  have hsnd1 : (S.addLinkCore a b na nb tag).2 = (some T, true) := by
    rw [addLinkCore_snd,
      insertLink_not_mem_snd _ _ (fun hm => hfresh _ hm rfl), Bool.true_or]
  -- the state after the first call
  have hWF1 : WFLTS C1 := addLinkCore_WF tag hWF ha hbm
  have hA1 : lookupNode C1.Layouts a
      = some { na with Successors := (insertLink (b, T) na.Successors).1 } := by
    rw [hC1, addLinkCore_lookup_src S a b na nb tag hab, ha]
    rfl
  have hB1 : lookupNode C1.Layouts b
      = some { nb with Predecessors :=
          (insertLink (a, T) nb.Predecessors).1 } := by
    rw [hC1, addLinkCore_lookup_tgt S a b na nb tag hba, hbm]
    rfl
  have hit1 : internTag C1 tag = (C1, T) := addLinkCore_internTag S a b na nb tag
  have hins1 : insertLink (b, T) (insertLink (b, T) na.Successors).1
      = ((insertLink (b, T) na.Successors).1, false) :=
    insertLink_mem_eq _ _ (insertLink_sorted _ _ hsa) (insertLink_self_mem _ _)
  have hins2 : insertLink (a, T) (insertLink (a, T) nb.Predecessors).1
      = ((insertLink (a, T) nb.Predecessors).1, false) :=
    insertLink_mem_eq _ _ (insertLink_sorted _ _ hpb) (insertLink_self_mem _ _)
  -- the second call
  have h2 : C1.addInstanceLink (some a) (some b) OE
      = some (C1.addLinkCore a b
          { na with Successors := (insertLink (b, T) na.Successors).1 }
          { nb with Predecessors := (insertLink (a, T) nb.Predecessors).1 }
          tag) := by
    rw [LayoutTypeSystem.addInstanceLink, addLink_some hab hA1 hB1]
  have hsnd2 : (C1.addLinkCore a b
      { na with Successors := (insertLink (b, T) na.Successors).1 }
      { nb with Predecessors := (insertLink (a, T) nb.Predecessors).1 }
      tag).2 = (some T, false) := by
    rw [addLinkCore_snd, hit1]
    dsimp only
    rw [hins1, hins2]
    rfl
  have hu1 : C1.updAt a (fun n => { n with Successors :=
      (insertLink (b, T) (insertLink (b, T) na.Successors).1).1 }) = C1 := by
    apply updAt_id hWF1.1
    intro n hn
    rw [hA1] at hn
    injection hn with hn
    subst hn
    rw [hins1]
  have hu2 : C1.updAt b (fun n => { n with Predecessors :=
      (insertLink (a, T) (insertLink (a, T) nb.Predecessors).1).1 }) = C1 := by
    apply updAt_id hWF1.1
    intro n hn
    rw [hB1] at hn
    injection hn with hn
    subst hn
    rw [hins2]
  have hfst2 : (C1.addLinkCore a b
      { na with Successors := (insertLink (b, T) na.Successors).1 }
      { nb with Predecessors := (insertLink (a, T) nb.Predecessors).1 }
      tag).1 = C1 := by
    show ((internTag C1 tag).1.updAt a _).updAt b _ = C1
    rw [hit1]
    dsimp only
    rw [hu1, hu2]
  refine ⟨C1, T, ?_, ?_⟩
  · rw [h1, ← hsnd1]
  · rw [h2]
    have : (C1.addLinkCore a b
        { na with Successors := (insertLink (b, T) na.Successors).1 }
        { nb with Predecessors := (insertLink (a, T) nb.Predecessors).1 }
        tag) = (C1, (some T, false)) := Prod.ext hfst2 hsnd2
    rw [this]

/-- Witness for C6: two identical instance-edge insertions between the
nodes at addresses 1 and 10 of the concrete three-node state. -/
theorem add_instance_twice_single_edge_witness :
    WFLTS exampleLTS ∧ (¬ (1 : Nat) = 10) ∧
    (∃ S1 T, exampleLTS.addInstanceLink (some 1) (some 10) ⟨[], [], 0⟩
        = some (S1, (some T, true)) ∧
      S1.addInstanceLink (some 1) (some 10) ⟨[], [], 0⟩
        = some (S1, (some T, false))) :=
  ⟨by decide, by decide,
   add_instance_twice_single_edge exampleLTS 1 10 (exampleNode 2) ⟨[], [], 0⟩
     (by decide) (by decide) (by decide) (by decide) (by decide)⟩

/-! ### C5 — equality insertion is symmetric and idempotent -/

/-- **C5.** After a successful `addEqualityLink(a, b)`, the swapped call
`addEqualityLink(b, a)` succeeds, changes nothing — every node's successor
and predecessor sets (indeed the whole state) stay exactly as after the
first call — and returns the same tag handle with `was_new = false`.
Moreover a proper first insertion adds both directions: the edge appears in
the successor and predecessor sets of both endpoints, labelled with the one
interned tag (the model's `addEqualityLink` only returns `some` when the
source's `revng_assert(ForwardLinkTag == BackwardLinkTag)` holds, so a
successful call already certifies that the forward and backward insertions
agreed). -/
theorem add_equality_symmetric_idempotent
    (S S1 : LayoutTypeSystem) (a b : Option Nat) (r1 : Option Nat × Bool)
    (hWF : WFLTS S)
    (h1 : S.addEqualityLink a b = some (S1, r1)) :
    S1.addEqualityLink b a = some (S1, (r1.1, false)) ∧
    (∀ x y, a = some x → b = some y → ¬ x = y →
      ∃ T nx ny, r1.1 = some T ∧
        lookupNode S1.Layouts x = some nx ∧
        (y, T) ∈ nx.Successors ∧ (y, T) ∈ nx.Predecessors ∧
        lookupNode S1.Layouts y = some ny ∧
        (x, T) ∈ ny.Successors ∧ (x, T) ∈ ny.Predecessors) := by
  rcases a with _ | x
  · rcases b with _ | y
    · have hc : S.addEqualityLink none none = some (S, (none, false)) := rfl
      rw [hc] at h1
      injection h1 with h1'
      have hS : S = S1 := congrArg Prod.fst h1'
      have hr : ((none : Option Nat), false) = r1 := congrArg Prod.snd h1'
      subst hS
      rw [← hr]
      exact ⟨hc, fun x y hx hy hne => by cases hx⟩
    · have hc : S.addEqualityLink none (some y) = some (S, (none, false)) := rfl
      have hc' : S.addEqualityLink (some y) none = some (S, (none, false)) := rfl
      rw [hc] at h1
      injection h1 with h1'
      have hS : S = S1 := congrArg Prod.fst h1'
      have hr : ((none : Option Nat), false) = r1 := congrArg Prod.snd h1'
      subst hS
      rw [← hr]
      exact ⟨hc', fun x y hx hy hne => by cases hx⟩
  · rcases b with _ | y
    · have hc : S.addEqualityLink (some x) none = some (S, (none, false)) := rfl
      have hc' : S.addEqualityLink none (some x) = some (S, (none, false)) := rfl
      rw [hc] at h1
      injection h1 with h1'
      have hS : S = S1 := congrArg Prod.fst h1'
      have hr : ((none : Option Nat), false) = r1 := congrArg Prod.snd h1'
      subst hS
      rw [← hr]
      exact ⟨hc', fun x' y' hx hy hne => by cases hy⟩
    by_cases hxy : x = y
    · subst hxy
      have hself : S.addLink (some x) (some x) TypeLinkTag.equalityTag
          = some (S, (none, false)) := by
        rw [LayoutTypeSystem.addLink, if_pos rfl]
      have hc : S.addEqualityLink (some x) (some x) = some (S, (none, false)) := by
        rw [LayoutTypeSystem.addEqualityLink]
        simp only [hself]
        rw [if_pos trivial]
      rw [hc] at h1
      injection h1 with h1'
      have hS : S = S1 := congrArg Prod.fst h1'
      have hr : ((none : Option Nat), false) = r1 := congrArg Prod.snd h1'
      subst hS
      rw [← hr]
      exact ⟨hc, fun x' y' hx hy hne => by
        injection hx with hx
        injection hy with hy
        subst hx
        subst hy
        exact absurd rfl hne⟩
    -- proper case: two distinct endpoints
    have hyx : ¬ y = x := fun hh => hxy hh.symm
    rw [LayoutTypeSystem.addEqualityLink] at h1
    cases hlx : lookupNode S.Layouts x with
    | none =>
      have hnone : S.addLink (some x) (some y) TypeLinkTag.equalityTag
          = none := by
        rw [LayoutTypeSystem.addLink, if_neg hxy, hlx]
      simp only [hnone] at h1
      cases h1
    | some nx =>
    cases hly : lookupNode S.Layouts y with
    | none =>
      have hnone : S.addLink (some x) (some y) TypeLinkTag.equalityTag
          = none := by
        rw [LayoutTypeSystem.addLink, if_neg hxy, hlx, hly]
      simp only [hnone] at h1
      cases h1
    | some ny =>
    have hsx : LinksSorted nx.Successors := (WFLTS_sorted_of_lookup hWF hlx).1
    have hpx : LinksSorted nx.Predecessors := (WFLTS_sorted_of_lookup hWF hlx).2
    have hsy : LinksSorted ny.Successors := (WFLTS_sorted_of_lookup hWF hly).1
    have hpy : LinksSorted ny.Predecessors := (WFLTS_sorted_of_lookup hWF hly).2
    set T : Nat := (internTag S TypeLinkTag.equalityTag).2 with hT
    -- the forward half of the first call
    rcases hcore : S.addLinkCore x y nx ny TypeLinkTag.equalityTag with ⟨Sf, rF⟩
    have hcf : (S.addLinkCore x y nx ny TypeLinkTag.equalityTag).1 = Sf :=
      congrArg Prod.fst hcore
    have hcs : (S.addLinkCore x y nx ny TypeLinkTag.equalityTag).2 = rF :=
      congrArg Prod.snd hcore
    have hf : S.addLink (some x) (some y) TypeLinkTag.equalityTag
        = some (Sf, rF) := by
      rw [addLink_some hxy hlx hly, hcore]
    simp only [hf] at h1
    have hrF : rF = (some T, (insertLink (y, T) nx.Successors).2
        || (insertLink (x, T) ny.Predecessors).2) := by
      rw [← hcs, addLinkCore_snd]
    have hxSf : lookupNode Sf.Layouts x
        = some { nx with Successors := (insertLink (y, T) nx.Successors).1 } := by
      rw [← hcf, addLinkCore_lookup_src S x y nx ny _ hxy, hlx]
      rfl
    have hySf : lookupNode Sf.Layouts y
        = some { ny with Predecessors :=
            (insertLink (x, T) ny.Predecessors).1 } := by
      rw [← hcf, addLinkCore_lookup_tgt S x y nx ny _ hyx, hly]
      rfl
    have hWFf : WFLTS Sf :=
      hcf ▸ addLinkCore_WF TypeLinkTag.equalityTag hWF hlx hly
    have hitf : internTag Sf TypeLinkTag.equalityTag = (Sf, T) := by
      rw [← hcf]
      exact addLinkCore_internTag S x y nx ny _
    have hT2 : (internTag Sf TypeLinkTag.equalityTag).2 = T := by
      rw [hitf]
    -- the backward half of the first call
    rcases hcore2 : Sf.addLinkCore y x
        { ny with Predecessors := (insertLink (x, T) ny.Predecessors).1 }
        { nx with Successors := (insertLink (y, T) nx.Successors).1 }
        TypeLinkTag.equalityTag with ⟨Sb, rB⟩
    have hcf2 : (Sf.addLinkCore y x
        { ny with Predecessors := (insertLink (x, T) ny.Predecessors).1 }
        { nx with Successors := (insertLink (y, T) nx.Successors).1 }
        TypeLinkTag.equalityTag).1 = Sb := congrArg Prod.fst hcore2
    have hcs2 : (Sf.addLinkCore y x
        { ny with Predecessors := (insertLink (x, T) ny.Predecessors).1 }
        { nx with Successors := (insertLink (y, T) nx.Successors).1 }
        TypeLinkTag.equalityTag).2 = rB := congrArg Prod.snd hcore2
    have hbwd : Sf.addLink (some y) (some x) TypeLinkTag.equalityTag
        = some (Sb, rB) := by
      rw [addLink_some hyx hySf hxSf, hcore2]
    simp only [hbwd] at h1
    by_cases hFB : rF = rB
    case neg => rw [if_neg hFB] at h1; cases h1
    rw [if_pos hFB] at h1
    injection h1 with h1'
    have hSb1 : Sb = S1 := congrArg Prod.fst h1'
    have hr1 : rF = r1 := congrArg Prod.snd h1'
    have hr11 : r1.1 = some T := by
      rw [← hr1, hrF]
    -- the state after the complete first call
    have hxS1 : lookupNode S1.Layouts x
        = some ⟨nx.ID, (insertLink (y, T) nx.Successors).1,
            (insertLink (y, T) nx.Predecessors).1, nx.L⟩ := by
      rw [← hSb1, ← hcf2, addLinkCore_lookup_tgt Sf y x _ _ _ hxy, hT2, hxSf]
      rfl
    have hyS1 : lookupNode S1.Layouts y
        = some ⟨ny.ID, (insertLink (x, T) ny.Successors).1,
            (insertLink (x, T) ny.Predecessors).1, ny.L⟩ := by
      rw [← hSb1, ← hcf2, addLinkCore_lookup_src Sf y x _ _ _ hyx, hT2, hySf]
      rfl
    have hWF1 : WFLTS S1 :=
      hSb1 ▸ (hcf2 ▸ addLinkCore_WF TypeLinkTag.equalityTag hWFf hySf hxSf)
    have hit1 : internTag S1 TypeLinkTag.equalityTag = (S1, T) := by
      rw [← hSb1, ← hcf2]
      have hh := addLinkCore_internTag Sf y x
        { ny with Predecessors := (insertLink (x, T) ny.Predecessors).1 }
        { nx with Successors := (insertLink (y, T) nx.Successors).1 }
        TypeLinkTag.equalityTag
      rw [hT2] at hh
      exact hh
    -- idempotent insertions
    have hinsA : insertLink (x, T) (insertLink (x, T) ny.Successors).1
        = ((insertLink (x, T) ny.Successors).1, false) :=
      insertLink_mem_eq _ _ (insertLink_sorted _ _ hsy) (insertLink_self_mem _ _)
    have hinsB : insertLink (y, T) (insertLink (y, T) nx.Predecessors).1
        = ((insertLink (y, T) nx.Predecessors).1, false) :=
      insertLink_mem_eq _ _ (insertLink_sorted _ _ hpx) (insertLink_self_mem _ _)
    have hinsC : insertLink (y, T) (insertLink (y, T) nx.Successors).1
        = ((insertLink (y, T) nx.Successors).1, false) :=
      insertLink_mem_eq _ _ (insertLink_sorted _ _ hsx) (insertLink_self_mem _ _)
    have hinsD : insertLink (x, T) (insertLink (x, T) ny.Predecessors).1
        = ((insertLink (x, T) ny.Predecessors).1, false) :=
      insertLink_mem_eq _ _ (insertLink_sorted _ _ hpy) (insertLink_self_mem _ _)
    -- the forward half of the second call is a no-op
    rcases hcore3 : S1.addLinkCore y x
        ⟨ny.ID, (insertLink (x, T) ny.Successors).1,
          (insertLink (x, T) ny.Predecessors).1, ny.L⟩
        ⟨nx.ID, (insertLink (y, T) nx.Successors).1,
          (insertLink (y, T) nx.Predecessors).1, nx.L⟩
        TypeLinkTag.equalityTag with ⟨Sc, rC⟩
    have hfwd3 : S1.addLink (some y) (some x) TypeLinkTag.equalityTag
        = some (Sc, rC) := by
      rw [addLink_some hyx hyS1 hxS1, hcore3]
    have hcf3 : (S1.addLinkCore y x
        ⟨ny.ID, (insertLink (x, T) ny.Successors).1,
          (insertLink (x, T) ny.Predecessors).1, ny.L⟩
        ⟨nx.ID, (insertLink (y, T) nx.Successors).1,
          (insertLink (y, T) nx.Predecessors).1, nx.L⟩
        TypeLinkTag.equalityTag).1 = Sc := congrArg Prod.fst hcore3
    have hcs3 : (S1.addLinkCore y x
        ⟨ny.ID, (insertLink (x, T) ny.Successors).1,
          (insertLink (x, T) ny.Predecessors).1, ny.L⟩
        ⟨nx.ID, (insertLink (y, T) nx.Successors).1,
          (insertLink (y, T) nx.Predecessors).1, nx.L⟩
        TypeLinkTag.equalityTag).2 = rC := congrArg Prod.snd hcore3
    have hrC : rC = (some T, false) := by
      rw [← hcs3, addLinkCore_snd, hit1]
      dsimp only
      rw [hinsA, hinsB]
      rfl
    have hu1 : S1.updAt y (fun n => { n with Successors :=
        (insertLink (x, T) (insertLink (x, T) ny.Successors).1).1 }) = S1 := by
      apply updAt_id hWF1.1
      intro n hn
      rw [hyS1] at hn
      injection hn with hn
      subst hn
      rw [hinsA]
    have hu2 : S1.updAt x (fun n => { n with Predecessors :=
        (insertLink (y, T) (insertLink (y, T) nx.Predecessors).1).1 }) = S1 := by
      apply updAt_id hWF1.1
      intro n hn
      rw [hxS1] at hn
      injection hn with hn
      subst hn
      rw [hinsB]
    have hSc : Sc = S1 := by
      rw [← hcf3]
      show ((internTag S1 TypeLinkTag.equalityTag).1.updAt y _).updAt x _ = S1
      rw [hit1]
      dsimp only
      rw [hu1, hu2]
    -- the backward half of the second call is a no-op
    rcases hcore4 : S1.addLinkCore x y
        ⟨nx.ID, (insertLink (y, T) nx.Successors).1,
          (insertLink (y, T) nx.Predecessors).1, nx.L⟩
        ⟨ny.ID, (insertLink (x, T) ny.Successors).1,
          (insertLink (x, T) ny.Predecessors).1, ny.L⟩
        TypeLinkTag.equalityTag with ⟨Sd, rD⟩
    have hbwd3 : S1.addLink (some x) (some y) TypeLinkTag.equalityTag
        = some (Sd, rD) := by
      rw [addLink_some hxy hxS1 hyS1, hcore4]
    have hcf4 : (S1.addLinkCore x y
        ⟨nx.ID, (insertLink (y, T) nx.Successors).1,
          (insertLink (y, T) nx.Predecessors).1, nx.L⟩
        ⟨ny.ID, (insertLink (x, T) ny.Successors).1,
          (insertLink (x, T) ny.Predecessors).1, ny.L⟩
        TypeLinkTag.equalityTag).1 = Sd := congrArg Prod.fst hcore4
    have hcs4 : (S1.addLinkCore x y
        ⟨nx.ID, (insertLink (y, T) nx.Successors).1,
          (insertLink (y, T) nx.Predecessors).1, nx.L⟩
        ⟨ny.ID, (insertLink (x, T) ny.Successors).1,
          (insertLink (x, T) ny.Predecessors).1, ny.L⟩
        TypeLinkTag.equalityTag).2 = rD := congrArg Prod.snd hcore4
    have hrD : rD = (some T, false) := by
      rw [← hcs4, addLinkCore_snd, hit1]
      dsimp only
      rw [hinsC, hinsD]
      rfl
    have hu3 : S1.updAt x (fun n => { n with Successors :=
        (insertLink (y, T) (insertLink (y, T) nx.Successors).1).1 }) = S1 := by
      apply updAt_id hWF1.1
      intro n hn
      rw [hxS1] at hn
      injection hn with hn
      subst hn
      rw [hinsC]
    have hu4 : S1.updAt y (fun n => { n with Predecessors :=
        (insertLink (x, T) (insertLink (x, T) ny.Predecessors).1).1 }) = S1 := by
      apply updAt_id hWF1.1
      intro n hn
      rw [hyS1] at hn
      injection hn with hn
      subst hn
      rw [hinsD]
    have hSd : Sd = S1 := by
      rw [← hcf4]
      show ((internTag S1 TypeLinkTag.equalityTag).1.updAt x _).updAt y _ = S1
      rw [hit1]
      dsimp only
      rw [hu3, hu4]
    constructor
    · rw [LayoutTypeSystem.addEqualityLink]
      simp only [hfwd3, hSc, hbwd3]
      rw [if_pos (hrC.trans hrD.symm), hSd, hrC, hr11]
    · intro x' y' hx' hy' hne'
      injection hx' with hx'
      injection hy' with hy'
      subst hx'
      subst hy'
      refine ⟨T,
        ⟨nx.ID, (insertLink (y, T) nx.Successors).1,
          (insertLink (y, T) nx.Predecessors).1, nx.L⟩,
        ⟨ny.ID, (insertLink (x, T) ny.Successors).1,
          (insertLink (x, T) ny.Predecessors).1, ny.L⟩,
        hr11, hxS1, ?_, ?_, hyS1, ?_, ?_⟩
      · exact insertLink_self_mem _ _
      · exact insertLink_self_mem _ _
      · exact insertLink_self_mem _ _
      · exact insertLink_self_mem _ _

/-- Witness for C5: a concrete equality insertion between the nodes at
addresses 1 and 10, then the swapped call on the resulting state. -/
theorem add_equality_symmetric_idempotent_witness :
    WFLTS exampleLTS ∧
    exampleLTS.addEqualityLink (some 1) (some 10)
      = some (LayoutTypeSystem.mk
          [(1, ⟨2, [(10, 100)], [(10, 100)], ⟨[], 0⟩⟩),
           (10, ⟨0, [(1, 100)], [(1, 100)], ⟨[], 0⟩⟩),
           (5, ⟨1, [], [], ⟨[], 0⟩⟩)]
          [(100, ⟨⟨[], [], 0⟩, .LK_Equality⟩)] 101, (some 100, true)) ∧
    (LayoutTypeSystem.mk
        [(1, ⟨2, [(10, 100)], [(10, 100)], ⟨[], 0⟩⟩),
         (10, ⟨0, [(1, 100)], [(1, 100)], ⟨[], 0⟩⟩),
         (5, ⟨1, [], [], ⟨[], 0⟩⟩)]
        [(100, ⟨⟨[], [], 0⟩, .LK_Equality⟩)] 101).addEqualityLink
          (some 10) (some 1)
      = some (LayoutTypeSystem.mk
          [(1, ⟨2, [(10, 100)], [(10, 100)], ⟨[], 0⟩⟩),
           (10, ⟨0, [(1, 100)], [(1, 100)], ⟨[], 0⟩⟩),
           (5, ⟨1, [], [], ⟨[], 0⟩⟩)]
          [(100, ⟨⟨[], [], 0⟩, .LK_Equality⟩)] 101, (some 100, false)) :=
  ⟨by decide, by decide,
   (add_equality_symmetric_idempotent exampleLTS
      (LayoutTypeSystem.mk
        [(1, ⟨2, [(10, 100)], [(10, 100)], ⟨[], 0⟩⟩),
         (10, ⟨0, [(1, 100)], [(1, 100)], ⟨[], 0⟩⟩),
         (5, ⟨1, [], [], ⟨[], 0⟩⟩)]
        [(100, ⟨⟨[], [], 0⟩, .LK_Equality⟩)] 101)
      (some 1) (some 10) (some 100, true) (by decide) (by decide)).1⟩

end RevngC
